import Mathlib

/-
  Verification of the `accessor` cursor-based binary reader/writer
  (accessor.c / accessor.h, build 103).

  The development shallowly embeds the parts of accessor.c that the checked
  properties are about.  The build is assumed to be a 64-bit one (as in the
  shipped Makefile): `size_t`, `uintmax_t` and `intmax_t` are 64-bit wide,
  `CHAR_BIT == 8`.  All `size_t`/`uintmax_t` arithmetic is modelled on `Nat`
  with explicit reduction modulo 2^64 where the C code can wrap.

  Modelling conventions:
  * a C buffer is a `List Nat` of byte values (each < 256 in well-formed
    states); pointers into the buffer are indices;
  * the host byte order (probed once by the library) is a `Bool` parameter
    `hostIsBig` of the functions that depend on it;
  * `malloc`/`realloc` success is an explicit `allocOk : Bool` oracle and the
    indeterminate content of a `realloc`-extended region is an explicit
    `junk` byte parameter;
  * the fields of `struct _accessor_t` that none of the checked claims can
    observe (`referenceCount` aside, the super/base pointers, which are
    replaced by copying the base fields into each view, as every operation
    only ever dereferences `a->baseAccessor` fields) are kept only where a
    claim needs them.
-/

namespace Accessor

/-- 2^64, the number of values of a 64-bit `size_t`/`uintmax_t`. -/
def SZ : Nat := 2 ^ 64

/-- `SIZE_MAX` of a 64-bit build. -/
def SIZE_MAX : Nat := SZ - 1

/-- `ACCESSOR_UNTIL_END == SIZE_MAX` (accessor.h). -/
def ACCESSOR_UNTIL_END : Nat := SIZE_MAX

/-- `sizeof(uintmax_t) == sizeof(intmax_t) == 8` on the modelled build. -/
def sizeofUintmax : Nat := 8

/-- 64-bit unsigned addition (C `+` on `size_t`/`uintmax_t`). -/
def szAdd (a b : Nat) : Nat := (a + b) % SZ

/-- 64-bit unsigned subtraction (C `-` on `size_t`/`uintmax_t`);
    arguments are 64-bit values, so `a < SZ` and `b < SZ` in any state the
    C program can reach. -/
def szSub (a b : Nat) : Nat := (a % SZ + (SZ - b % SZ)) % SZ

/-- 64-bit unsigned multiplication (C `*` on `size_t`). -/
def szMul (a b : Nat) : Nat := (a * b) % SZ

/-- 64-bit unsigned negation (C unary `-` on `uintmax_t`). -/
def szNeg (a : Nat) : Nat := (SZ - a % SZ) % SZ

/-- 64-bit bitwise complement (C `~` on `uintmax_t`). -/
def szNot (a : Nat) : Nat := SZ - 1 - a % SZ

/-- The C cast `(size_t) x` of a signed 64-bit value. -/
def szOfInt (i : Int) : Nat := (i % (SZ : Int)).toNat

/-- The C cast `(ssize_t) x` / `(intmax_t) x` of an unsigned 64-bit value. -/
def ssizeOfNat (n : Nat) : Int :=
  if n % SZ < 2 ^ 63 then ((n % SZ : Nat) : Int) else ((n % SZ : Nat) : Int) - (SZ : Int)

/-- Reinterpret a 64-bit unsigned value as `intmax_t` (two's complement). -/
def toIntmax (x : Nat) : Int := ssizeOfNat x

/-- `accessorStatus` (accessor.h). -/
inductive Status where
  | ok
  | invalidParameter
  | beyondEnd
  | outOfMemory
  | hostError
  | openError
  | invalidReadData
  | writeError
  | readOnlyError
deriving DecidableEq, Repr

/-- `accessorEndianness` (accessor.h). -/
inductive Endianness where
  | big
  | little
  | native
  | reverse
deriving DecidableEq, Repr

/-- `accessorOppositeEndianness` (accessor.c). -/
def accessorOppositeEndianness : Endianness → Endianness
  | .big => .little
  | .little => .big
  | .native => .reverse
  | .reverse => .native

/-- The `accessorPrivateIsBigEndianness` table, indexed by the lazily probed
    host endianness (`hostIsBig = true` when the probe resolves the native
    order to big-endian). -/
def isBigEndianness (hostIsBig : Bool) : Endianness → Bool
  | .big => true
  | .little => false
  | .native => hostIsBig
  | .reverse => !hostIsBig

/-- The `accessorPrivateIsReverseEndianness` table. -/
def isReverseEndianness (hostIsBig : Bool) : Endianness → Bool
  | .big => !hostIsBig
  | .little => hostIsBig
  | .native => false
  | .reverse => true

/-- `accessorCoverageRecord` (accessor.h); `usage2 : const void *` is
    modelled by its address value. -/
structure CoverageRecord where
  offset : Nat
  size : Nat
  usage1 : Nat
  usage2 : Nat
deriving DecidableEq, Repr

/-- The modelled `struct _accessor_t`.  The base accessor's storage fields
    (`data`, `dataMaxSize`, `dataFileOffset`, `granularity`,
    `mayBeReallocated`, ...) are copied into each view, since every
    operation reads them through `a->baseAccessor` and the claims checked
    here never interleave operations on two views of one base. -/
structure AccessorState where
  windowOffset : Nat
  baseWindowOffset : Nat      -- `baseAccessorWindowOffset`
  windowSize : Nat
  cursor : Nat
  availableBytes : Nat
  isBaseAccessor : Bool
  writeEnabled : Bool
  -- base storage fields
  data : List Nat
  dataAllocated : Bool        -- `data != NULL`
  dataMaxSize : Nat
  dataFileOffset : Nat
  granularity : Nat
  isMapped : Bool
  mayBeReallocated : Bool
  freeOnClose : Bool
  inputFileDescriptor : Int
  outputFileDescriptor : Int
  writeOnClose : Bool
  referenceCount : Nat
  -- common fields
  endianness : Endianness
  cursorStack : List Nat
  cursorStackAllocation : Nat
  coverageEnabled : Bool
  coverageSuspendCount : Nat
  coverageStartOffset : Nat
  coverageArray : List CoverageRecord
  coverageArrayAllocation : Nat
  coverageUsage1 : Nat
  coverageUsage2 : Nat
deriving DecidableEq, Repr

/-- The fresh accessor built by `accessorPrivateCreateEmpty` (before the
    opening function fills in its fields).  The default endianness global is
    a parameter. -/
def createEmpty (defaultEndianness : Endianness) : AccessorState where
  windowOffset := 0
  baseWindowOffset := 0
  windowSize := 0
  cursor := 0
  availableBytes := 0
  isBaseAccessor := true
  writeEnabled := false
  data := []
  dataAllocated := false
  dataMaxSize := 0
  dataFileOffset := 0
  granularity := 64 * 1024
  isMapped := false
  mayBeReallocated := false
  freeOnClose := false
  inputFileDescriptor := -1
  outputFileDescriptor := -1
  writeOnClose := false
  referenceCount := 0
  endianness := defaultEndianness
  cursorStack := []
  cursorStackAllocation := 0
  coverageEnabled := false
  coverageSuspendCount := 0
  coverageStartOffset := 0
  coverageArray := []
  coverageArrayAllocation := 0
  coverageUsage1 := 0
  coverageUsage2 := 0

/-- `accessorOpenReadingMemory` (accessor.c).  `ptr` is the borrowed buffer,
    `dataSize` its advertised size; the caller's `dataSize`, `windowOffset`
    and `windowSize` are 64-bit `size_t` values. -/
def accessorOpenReadingMemory (defaultEndianness : Endianness) (ptr : List Nat)
    (dataSize : Nat) (freeOnCloseOption : Bool) (windowOffset windowSize : Nat) :
    Status × Option AccessorState :=
  let a := createEmpty defaultEndianness
  let windowSize := if windowSize = ACCESSOR_UNTIL_END then szSub dataSize windowOffset else windowSize
  if szAdd windowOffset windowSize > dataSize then (.beyondEnd, none)
  else
    (.ok, some { a with
      data := ptr
      dataAllocated := true
      windowOffset := windowOffset
      baseWindowOffset := windowOffset
      windowSize := windowSize
      cursor := 0
      availableBytes := windowSize
      dataMaxSize := dataSize
      mayBeReallocated := false
      freeOnClose := freeOnCloseOption })

/-! ### Pointer-level integer codecs (accessor.c, `accessorPrivate...AtPointer`) -/

/-- The big-endian-branch loop body of `accessorPrivateReadUIntAtPointer`:
    `for (i = 0; i < nbytes; i++) result = (result << 8) | bytes[i];`
    (all arithmetic on 64-bit `uintmax_t`). -/
def readUIntLoopBig : List Nat → Nat → Nat
  | [], result => result
  | b :: rest, result => readUIntLoopBig rest ((result <<< 8 ||| b) % SZ)

/-- The little-endian-branch loop body of `accessorPrivateReadUIntAtPointer`:
    `for (i = 0; i < nbytes; i++) result |= ((uintmax_t) bytes[i]) << (i * 8);` -/
def readUIntLoopLittle : List Nat → Nat → Nat → Nat
  | [], _, result => result
  | b :: rest, i, result => readUIntLoopLittle rest (i + 1) ((result ||| (b <<< (i * 8)) % SZ) % SZ)

/-- `accessorPrivateReadUIntAtPointer` (accessor.c): fold `nbytes` bytes at
    the pointer into a `uintmax_t` according to the resolved endianness. -/
def accessorPrivateReadUIntAtPointer (hostIsBig : Bool) (bytes : List Nat)
    (e : Endianness) (nbytes : Nat) : Nat :=
  if isBigEndianness hostIsBig e then readUIntLoopBig (bytes.take nbytes) 0
  else readUIntLoopLittle (bytes.take nbytes) 0 0

/-- The loop of `accessorPrivateReadIntAtPointer`, big-endian branch: the
    accumulator also carries `signBit` and `signExtension`, which are shifted
    left by 8 at every iteration except the first (`if (i)`). -/
def readIntLoopBig : List Nat → Nat → Nat → Nat → Nat → Nat × Nat × Nat
  | [], _, result, signBit, signExtension => (result, signBit, signExtension)
  | b :: rest, i, result, signBit, signExtension =>
    let result := (result <<< 8 ||| b) % SZ
    if i = 0 then readIntLoopBig rest (i + 1) result signBit signExtension
    else readIntLoopBig rest (i + 1) result ((signBit <<< 8) % SZ) ((signExtension <<< 8) % SZ)

/-- The loop of `accessorPrivateReadIntAtPointer`, little-endian branch. -/
def readIntLoopLittle : List Nat → Nat → Nat → Nat → Nat → Nat × Nat × Nat
  | [], _, result, signBit, signExtension => (result, signBit, signExtension)
  | b :: rest, i, result, signBit, signExtension =>
    let result := (result ||| (b <<< (i * 8)) % SZ) % SZ
    if i = 0 then readIntLoopLittle rest (i + 1) result signBit signExtension
    else readIntLoopLittle rest (i + 1) result ((signBit <<< 8) % SZ) ((signExtension <<< 8) % SZ)

/-- `accessorPrivateReadIntAtPointer` (accessor.c): read `nbytes` bytes as an
    unsigned fold, then set all bits above the top read bit when the sign bit
    of byte `nbytes - 1` is set (`signBit` starts at `0x80`, `signExtension`
    at `~(uintmax_t) 0xff`), and return the result as `intmax_t`. -/
def accessorPrivateReadIntAtPointer (hostIsBig : Bool) (bytes : List Nat)
    (e : Endianness) (nbytes : Nat) : Int :=
  let st :=
    if isBigEndianness hostIsBig e then readIntLoopBig (bytes.take nbytes) 0 0 0x80 (SZ - 0x100)
    else readIntLoopLittle (bytes.take nbytes) 0 0 0x80 (SZ - 0x100)
  let result := if st.1 &&& st.2.1 ≠ 0 then st.1 ||| st.2.2 else st.1
  toIntmax result

/-- The little-endian-branch loop of `accessorPrivateWriteUIntAtPointer`:
    `for (i = 0; i < nbytes; i++) { bytes[i] = (uint8_t) x; x >>= 8; }`,
    producing the list of stored bytes. -/
def writeUIntLoopLittle : Nat → Nat → List Nat
  | 0, _ => []
  | n + 1, x => (x % 256) :: writeUIntLoopLittle n (x >>> 8)

/-- `accessorPrivateWriteUIntAtPointer` (accessor.c): the big-endian branch
    stores the same bytes from the last position down
    (`for (i = nbytes; i > 0; ) { bytes[--i] = (uint8_t) x; x >>= 8; }`),
    which is the reversal of the little-endian store. -/
def accessorPrivateWriteUIntAtPointer (hostIsBig : Bool) (x : Nat)
    (e : Endianness) (nbytes : Nat) : List Nat :=
  if isBigEndianness hostIsBig e then (writeUIntLoopLittle nbytes x).reverse
  else writeUIntLoopLittle nbytes x

/-- `accessorPrivateReadUInt32AtPointer` (accessor.c): width-specialised
    4-byte read (`uint32_t` arithmetic). -/
def accessorPrivateReadUInt32AtPointer (hostIsBig : Bool) (bytes : List Nat)
    (e : Endianness) : Nat :=
  if isBigEndianness hostIsBig e then
    (bytes.getD 0 0 <<< 24 ||| bytes.getD 1 0 <<< 16 ||| bytes.getD 2 0 <<< 8 ||| bytes.getD 3 0) % 2 ^ 32
  else
    (bytes.getD 3 0 <<< 24 ||| bytes.getD 2 0 <<< 16 ||| bytes.getD 1 0 <<< 8 ||| bytes.getD 0 0) % 2 ^ 32

/-- `accessorSwapUInt16` (accessor.c, the `case 2` expression of
    `accessorSwapUInt`): `(uint16_t)((x << 8) | ((x & 0xff00) >> 8))`. -/
def accessorSwapUInt16 (x : Nat) : Nat := ((x <<< 8) ||| ((x &&& 0xff00) >>> 8)) % 2 ^ 16

/-! ### Buffer primitives -/

/-- `memcpy(data + pos, bs, bs.length)`: splice `bs` into `data` at `pos`. -/
def storeBytes (data : List Nat) (pos : Nat) (bs : List Nat) : List Nat :=
  data.take pos ++ bs ++ data.drop (pos + bs.length)

/-- `realloc(data, n)`: the first `min n data.length` bytes are preserved, an
    extended region has indeterminate content `junk`. -/
def reallocBytes (data : List Nat) (n : Nat) (junk : Nat) : List Nat :=
  data.take n ++ List.replicate (n - data.length) junk

/-- `accessorPrivateRoundUpwardsToNonNullMultiple` (accessor.c):
    `x + m - (x % m)` on `uintmax_t`. -/
def accessorPrivateRoundUpwardsToNonNullMultiple (x m : Nat) : Nat :=
  (x + m - x % m) % SZ

/-! ### Coverage helpers -/

/-- `accessorPrivateOpenCoverage` (accessor.c): capture the cursor as the
    start offset of the pending implicit record when coverage is active. -/
def accessorPrivateOpenCoverage (s : AccessorState) : AccessorState :=
  if s.coverageEnabled ∧ s.coverageSuspendCount = 0 then
    { s with coverageStartOffset := s.cursor }
  else s

/-- `accessorPrivateCloseCoverage` (accessor.c): when coverage is active,
    append the record `[startOffset, cursor - startOffset)` with the current
    usage defaults.  The C code aborts the process when growing the record
    array fails, so the model's append always succeeds; the allocation field
    is updated as in the source. -/
def accessorPrivateCloseCoverage (s : AccessorState) : AccessorState :=
  if s.coverageEnabled ∧ s.coverageSuspendCount = 0 then
    let newAllocation :=
      if s.coverageArray.length + 1 > s.coverageArrayAllocation then
        (if s.coverageArrayAllocation < 64 then 64 else s.coverageArrayAllocation) * 2
      else s.coverageArrayAllocation
    { s with
      coverageArray := s.coverageArray ++
        [{ offset := s.coverageStartOffset
           size := szSub s.cursor s.coverageStartOffset
           usage1 := s.coverageUsage1
           usage2 := s.coverageUsage2 }]
      coverageArrayAllocation := newAllocation }
  else s

/-! ### Growing, seeking, cursor stack -/

/-- `accessorPrivateGrow` (accessor.c), called on the base accessor.
    `allocOk` tells whether `realloc` succeeds, `junk` is the indeterminate
    content of a freshly reallocated region. -/
def accessorPrivateGrow (s : AccessorState) (newSize : Nat) (allocOk : Bool) (junk : Nat) :
    Status × AccessorState :=
  if newSize ≤ szAdd s.windowOffset s.windowSize then (.ok, s)
  else
    let reallocated : Status × AccessorState :=
      if s.dataMaxSize < newSize then
        if ¬ s.mayBeReallocated then (.invalidParameter, s)
        else
          let newDataSize := accessorPrivateRoundUpwardsToNonNullMultiple newSize s.granularity
          if ¬ allocOk then (.outOfMemory, s)
          else (.ok, { s with data := reallocBytes s.data newDataSize junk, dataMaxSize := newDataSize })
      else (.ok, s)
    match reallocated with
    | (.ok, s1) => (.ok, { s1 with windowSize := newSize, availableBytes := szSub newSize s1.cursor })
    | r => r

/-- The `switch (whence)` of `accessorSeek`: the new cursor value for the
    three accepted `whence` values (the POSIX constants `SEEK_SET = 0`,
    `SEEK_CUR = 1`, `SEEK_END = 2`), computed with wrapping `size_t`
    arithmetic on the `(size_t) offset` cast of the signed offset. -/
def seekNewCursor (s : AccessorState) (offset : Int) (whence : Int) : Nat :=
  if whence = 0 then szOfInt offset
  else if whence = 1 then szAdd s.cursor (szOfInt offset)
  else szAdd s.windowSize (szOfInt offset)

/-- `accessorSeek` (accessor.c).  `whence` values other than `SEEK_SET`,
    `SEEK_CUR` and `SEEK_END` are rejected. -/
def accessorSeek (s : AccessorState) (offset : Int) (whence : Int) (allocOk : Bool) (junk : Nat) :
    Status × AccessorState :=
  if whence ≠ 0 ∧ whence ≠ 1 ∧ whence ≠ 2 then (.invalidParameter, s)
  else
    let newCursor := seekNewCursor s offset whence
    let afterGrow : Status × AccessorState :=
      if s.writeEnabled ∧ newCursor > s.windowSize then
        let windowSizeBeforeGrow := s.windowSize
        let grown : Status × AccessorState :=
          if newCursor > s.dataMaxSize then accessorPrivateGrow s newCursor allocOk junk
          else (.ok, s)
        match grown with
        | (.ok, s1) =>
          -- memset(a->baseAccessor->data + windowSizeBeforeGrow, 0, newCursor - windowSizeBeforeGrow)
          let zeros := List.replicate (szSub newCursor windowSizeBeforeGrow) 0
          let s2 := { s1 with data := storeBytes s1.data windowSizeBeforeGrow zeros }
          (.ok, { s2 with windowSize := newCursor })
        | r => r
      else (.ok, s)
    match afterGrow with
    | (.ok, s1) =>
      if newCursor > s1.windowSize then (.beyondEnd, s1)
      else (.ok, { s1 with cursor := newCursor, availableBytes := szSub s1.windowSize newCursor })
    | r => r

/-- `accessorTruncate` (accessor.c). -/
def accessorTruncate (s : AccessorState) : Status × AccessorState :=
  if ¬ s.writeEnabled then (.readOnlyError, s)
  else (.ok, { s with windowSize := s.cursor, availableBytes := 0 })

/-- `accessorPushCursor` (accessor.c), via
    `accessorPrivateExtendPointerSizeAllocation` with `allocChunk = 64`:
    growth of the stack allocation may fail (`allocOk = false` models a
    failing `realloc`). -/
def accessorPushCursor (s : AccessorState) (allocOk : Bool) : Status × AccessorState :=
  let newsize := s.cursorStack.length + 1
  if newsize > s.cursorStackAllocation then
    if ¬ allocOk then (.outOfMemory, s)
    else
      let newalloc := (newsize - 1 + 64) - (newsize - 1) % 64
      (.ok, { s with cursorStack := s.cursorStack ++ [s.cursor], cursorStackAllocation := newalloc })
  else (.ok, { s with cursorStack := s.cursorStack ++ [s.cursor] })

/-- `accessorPopCursor` (accessor.c): pops the saved cursor (the stack
    pointer moves even if the subsequent seek fails) and restores it with
    `accessorSeek(a, (ssize_t) saved, SEEK_SET)`. -/
def accessorPopCursor (s : AccessorState) (allocOk : Bool) (junk : Nat) : Status × AccessorState :=
  if s.cursorStack.length < 1 then (.invalidParameter, s)
  else
    let saved := s.cursorStack.getLastD 0
    accessorSeek { s with cursorStack := s.cursorStack.dropLast } (ssizeOfNat saved) 0 allocOk junk

/-- `accessorDropCursor` (accessor.c). -/
def accessorDropCursor (s : AccessorState) : Status × AccessorState :=
  if s.cursorStack.length < 1 then (.invalidParameter, s)
  else (.ok, { s with cursorStack := s.cursorStack.dropLast })

/-! ### Typed reads

Every scalar read follows the same shape as in the source: bounds-check
against `availableBytes`, decode at
`a->baseAccessor->data + a->baseAccessorWindowOffset + a->cursor`, then
advance the cursor between `accessorPrivateOpenCoverage` and
`accessorPrivateCloseCoverage`.  On failure `*x` is not assigned; the model
returns a dummy value component in that case. -/

/-- `accessorReadEndianUInt` (accessor.c). -/
def accessorReadEndianUInt (hostIsBig : Bool) (s : AccessorState) (e : Endianness) (nbytes : Nat) :
    Status × Nat × AccessorState :=
  if nbytes > sizeofUintmax then (.invalidParameter, 0, s)
  else if s.availableBytes < nbytes then (.beyondEnd, 0, s)
  else
    let x := accessorPrivateReadUIntAtPointer hostIsBig (s.data.drop (s.baseWindowOffset + s.cursor)) e nbytes
    let s := accessorPrivateOpenCoverage s
    let s := { s with cursor := szAdd s.cursor nbytes, availableBytes := szSub s.availableBytes nbytes }
    (.ok, x, accessorPrivateCloseCoverage s)

/-- `accessorReadEndianInt` (accessor.c). -/
def accessorReadEndianInt (hostIsBig : Bool) (s : AccessorState) (e : Endianness) (nbytes : Nat) :
    Status × Int × AccessorState :=
  if nbytes > sizeofUintmax then (.invalidParameter, 0, s)
  else if s.availableBytes < nbytes then (.beyondEnd, 0, s)
  else
    let x := accessorPrivateReadIntAtPointer hostIsBig (s.data.drop (s.baseWindowOffset + s.cursor)) e nbytes
    let s := accessorPrivateOpenCoverage s
    let s := { s with cursor := szAdd s.cursor nbytes, availableBytes := szSub s.availableBytes nbytes }
    (.ok, x, accessorPrivateCloseCoverage s)

/-- `accessorReadUInt32` (accessor.c): 4-byte read with the accessor's own
    endianness. -/
def accessorReadUInt32 (hostIsBig : Bool) (s : AccessorState) : Status × Nat × AccessorState :=
  if s.availableBytes < 4 then (.beyondEnd, 0, s)
  else
    let x := accessorPrivateReadUInt32AtPointer hostIsBig (s.data.drop (s.baseWindowOffset + s.cursor)) s.endianness
    let s := accessorPrivateOpenCoverage s
    let s := { s with cursor := szAdd s.cursor 4, availableBytes := szSub s.availableBytes 4 }
    (.ok, x, accessorPrivateCloseCoverage s)

/-- `accessorReadFloat32` (accessor.c) is literally
    `accessorReadUInt32(a, (uint32_t *) x)`: the float is the bit pattern of
    the 32-bit unsigned read. -/
def accessorReadFloat32 (hostIsBig : Bool) (s : AccessorState) : Status × Nat × AccessorState :=
  accessorReadUInt32 hostIsBig s

/-- `accessorReadBytes` (accessor.c): the value component is the byte block
    copied to the caller's buffer. -/
def accessorReadBytes (s : AccessorState) (count : Nat) : Status × List Nat × AccessorState :=
  if s.availableBytes < count then (.beyondEnd, [], s)
  else
    let out := (s.data.drop (s.baseWindowOffset + s.cursor)).take count
    let s := accessorPrivateOpenCoverage s
    let s := { s with cursor := szAdd s.cursor count, availableBytes := szSub s.availableBytes count }
    (.ok, out, accessorPrivateCloseCoverage s)

/-- `accessorGetPointerForBytesToRead` (accessor.c): the value component is
    the exposed pointer, as an index into the base data. -/
def accessorGetPointerForBytesToRead (s : AccessorState) (count : Nat) :
    Status × Nat × AccessorState :=
  if s.availableBytes < count then (.beyondEnd, 0, s)
  else
    let ptr := s.baseWindowOffset + s.cursor
    let s := accessorPrivateOpenCoverage s
    let s := { s with cursor := szAdd s.cursor count, availableBytes := szSub s.availableBytes count }
    (.ok, ptr, accessorPrivateCloseCoverage s)

/-- Reassemble `count` host-order 16-bit elements from the bytes `memcpy`ed
    into the destination array of `accessorReadEndianUInt16Array`. -/
def uint16FromBytePairs (hostIsBig : Bool) : Nat → List Nat → List Nat
  | 0, _ => []
  | n + 1, bs =>
    let lo := bs.getD 0 0
    let hi := bs.getD 1 0
    (if hostIsBig then lo <<< 8 ||| hi else hi <<< 8 ||| lo) :: uint16FromBytePairs hostIsBig n (bs.drop 2)

/-- `accessorReadEndianUInt16Array` (accessor.c): bounds-check
    `count * 2` (wrapping `size_t` product), allocate, `memcpy`, then swap
    each element in place when the endianness is byte-reversed. -/
def accessorReadEndianUInt16Array (hostIsBig : Bool) (s : AccessorState) (count : Nat)
    (e : Endianness) (allocOk : Bool) : Status × List Nat × AccessorState :=
  let byteCount := szMul count 2
  if s.availableBytes < byteCount then (.beyondEnd, [], s)
  else if ¬ allocOk then (.outOfMemory, [], s)
  else
    let dst := uint16FromBytePairs hostIsBig count ((s.data.drop (s.baseWindowOffset + s.cursor)).take byteCount)
    let dst := if isReverseEndianness hostIsBig e then dst.map accessorSwapUInt16 else dst
    let s := accessorPrivateOpenCoverage s
    let s := { s with cursor := szAdd s.cursor byteCount, availableBytes := szSub s.availableBytes byteCount }
    (.ok, dst, accessorPrivateCloseCoverage s)

/-- `accessorReadCString` (accessor.c): scan for a NUL inside the available
    bytes, allocate `stringLength + 1`, copy, then advance.  The value
    components are the copied bytes and the string length. -/
def accessorReadCString (s : AccessorState) (allocOk : Bool) :
    Status × List Nat × Nat × AccessorState :=
  let region := (s.data.drop (s.baseWindowOffset + s.cursor)).take s.availableBytes
  let stringLength := (region.takeWhile (· ≠ 0)).length
  if s.availableBytes < szAdd stringLength 1 then (.beyondEnd, [], 0, s)
  else if ¬ allocOk then (.outOfMemory, [], 0, s)
  else
    let result := (s.data.drop (s.baseWindowOffset + s.cursor)).take (stringLength + 1)
    let s := accessorPrivateOpenCoverage s
    let s := { s with cursor := szAdd s.cursor (szAdd stringLength 1),
                      availableBytes := szSub s.availableBytes (szAdd stringLength 1) }
    (.ok, result, stringLength, accessorPrivateCloseCoverage s)

/-! ### Varint / zig-zag -/

/-- The do-while loop of `accessorReadVarInt`, walking the bytes reachable
    from the cursor (bounded by the local `availableBytes` copy).  Returns
    the decoded value and the consumed byte count, or the failure status;
    the accessor itself is untouched until the loop has succeeded. -/
def accessorReadVarIntLoop : List Nat → Nat → Nat → Nat → Except Status (Nat × Nat)
  | [], _, _, _ => .error .beyondEnd
  | byte :: rest, shiftCount, result, nbytes =>
    let nbytes := nbytes + 1
    let result := (result ||| ((byte &&& 0x7f) <<< shiftCount) % SZ) % SZ
    let shiftCount := shiftCount + 7
    if byte &&& 0x80 ≠ 0 then
      if shiftCount < sizeofUintmax * 8 then accessorReadVarIntLoop rest shiftCount result nbytes
      else .error .invalidReadData
    else .ok (result, nbytes)

/-- `accessorReadVarInt` (accessor.c).  Note: the source contains no
    coverage calls in this function — a successful varint read does not
    append a coverage record. -/
def accessorReadVarInt (s : AccessorState) : Status × Nat × AccessorState :=
  let region := (s.data.drop (s.baseWindowOffset + s.cursor)).take s.availableBytes
  match accessorReadVarIntLoop region 0 0 0 with
  | .error st => (st, 0, s)
  | .ok (result, nbytes) =>
    (.ok, result, { s with availableBytes := szSub s.availableBytes nbytes,
                           cursor := szAdd s.cursor nbytes })

/-- `accessorReadZigZagInt` (accessor.c):
    `*x = (varint >> 1) ^ - (varint & 1)` on `uintmax_t`, stored as
    `intmax_t`. -/
def accessorReadZigZagInt (s : AccessorState) : Status × Int × AccessorState :=
  match accessorReadVarInt s with
  | (.ok, varint, s1) => (.ok, toIntmax ((varint >>> 1) ^^^ szNeg (varint &&& 1)), s1)
  | (st, _, s1) => (st, 0, s1)

/-- The byte-count loop of `accessorWriteVarInt`:
    `do { nbytes++; tmp >>= 7; } while (tmp != 0);`. -/
def varIntByteCount (x : Nat) : Nat :=
  if x >>> 7 = 0 then 1 else 1 + varIntByteCount (x >>> 7)
termination_by x
decreasing_by
  simp only [Nat.shiftRight_eq_div_pow] at *
  exact Nat.div_lt_self (by omega) (by norm_num)

/-- The emit loop of `accessorWriteVarInt`:
    `while (--nbytes) { *ptr++ = (x & 0x7f) | 0x80; x >>= 7; } *ptr = x & 0x7f;`. -/
def varIntEncodeLoop : Nat → Nat → List Nat
  | 0, _ => []
  | 1, x => [x &&& 0x7f]
  | n + 2, x => ((x &&& 0x7f) ||| 0x80) :: varIntEncodeLoop (n + 1) (x >>> 7)

/-- Spec-side definition (from the claim's wording, not the source): the
    value carried by a varint byte group list, 7 payload bits per byte,
    least-significant group first. -/
def varIntSpecValue : List Nat → Nat
  | [] => 0
  | b :: rest => b % 128 + 128 * varIntSpecValue rest

/-! ### Writes -/

/-- `accessorWriteEndianUInt` (accessor.c). -/
def accessorWriteEndianUInt (hostIsBig : Bool) (s : AccessorState) (x : Nat) (e : Endianness)
    (nbytes : Nat) (allocOk : Bool) (junk : Nat) : Status × AccessorState :=
  if ¬ s.writeEnabled then (.readOnlyError, s)
  else if nbytes > sizeofUintmax then (.invalidParameter, s)
  else
    let afterGrow : Status × AccessorState :=
      if s.availableBytes < nbytes then accessorPrivateGrow s (szAdd s.cursor nbytes) allocOk junk
      else (.ok, s)
    match afterGrow with
    | (.ok, s1) =>
      let bs := accessorPrivateWriteUIntAtPointer hostIsBig x e nbytes
      (.ok, { s1 with data := storeBytes s1.data (s1.baseWindowOffset + s1.cursor) bs,
                      cursor := szAdd s1.cursor nbytes,
                      availableBytes := szSub s1.availableBytes nbytes })
    | r => r

/-- `accessorWriteVarInt` (accessor.c). -/
def accessorWriteVarInt (s : AccessorState) (x : Nat) (allocOk : Bool) (junk : Nat) :
    Status × AccessorState :=
  if ¬ s.writeEnabled then (.readOnlyError, s)
  else
    let nbytes := varIntByteCount x
    let afterGrow : Status × AccessorState :=
      if s.availableBytes < nbytes then accessorPrivateGrow s (szAdd s.cursor nbytes) allocOk junk
      else (.ok, s)
    match afterGrow with
    | (.ok, s1) =>
      let bs := varIntEncodeLoop nbytes x
      (.ok, { s1 with data := storeBytes s1.data (s1.baseWindowOffset + s1.cursor) bs,
                      cursor := szAdd s1.cursor nbytes,
                      availableBytes := szSub s1.availableBytes nbytes })
    | r => r

/-- `accessorWriteZigZagInt` (accessor.c):
    `x >= 0 ? writeVarInt((uintmax_t) x << 1) : writeVarInt(~((uintmax_t) x << 1))`. -/
def accessorWriteZigZagInt (s : AccessorState) (x : Int) (allocOk : Bool) (junk : Nat) :
    Status × AccessorState :=
  if x ≥ 0 then accessorWriteVarInt s ((szOfInt x <<< 1) % SZ) allocOk junk
  else accessorWriteVarInt s (szNot ((szOfInt x <<< 1) % SZ)) allocOk junk

/-! ### Sub-views, root window offset -/

/-- `accessorRootWindowOffset` (accessor.c):
    `a->baseAccessorWindowOffset + a->baseAccessor->dataFileOffset`. -/
def accessorRootWindowOffset (s : AccessorState) : Nat :=
  szAdd s.baseWindowOffset s.dataFileOffset

/-- `accessorOpenReadingAccessorBytes` (accessor.c): slice `count` bytes at
    the super's cursor into a fresh read-only sub-view sharing the base
    storage, record the consumed range against the super's coverage and
    advance the super's cursor.  Returns the child (if any) and the updated
    super. -/
def accessorOpenReadingAccessorBytes (supera : AccessorState) (count : Nat) :
    Status × Option AccessorState × AccessorState :=
  if supera.writeEnabled then (.invalidParameter, none, supera)
  else
    let count := if count = ACCESSOR_UNTIL_END then supera.availableBytes else count
    if count > supera.availableBytes then (.beyondEnd, none, supera)
    else
      let child := { createEmpty supera.endianness with
        windowOffset := supera.cursor
        baseWindowOffset := szAdd supera.baseWindowOffset supera.cursor
        windowSize := count
        cursor := 0
        availableBytes := count
        isBaseAccessor := false
        writeEnabled := false
        endianness := supera.endianness
        -- base fields shared with the super's base
        data := supera.data
        dataAllocated := supera.dataAllocated
        dataMaxSize := supera.dataMaxSize
        dataFileOffset := supera.dataFileOffset }
      let supera := { supera with referenceCount := supera.referenceCount + 1 }
      let supera := accessorPrivateOpenCoverage supera
      let supera := { supera with cursor := szAdd supera.cursor count,
                                  availableBytes := szSub supera.availableBytes count }
      (.ok, some child, accessorPrivateCloseCoverage supera)

/-- `accessorOpenReadingAccessorWindow` (accessor.c): explicit
    `[windowOffset, windowOffset + windowSize)` sub-window of the super's
    window; the super's cursor and coverage are untouched. -/
def accessorOpenReadingAccessorWindow (supera : AccessorState) (windowOffset windowSize : Nat) :
    Status × Option AccessorState × AccessorState :=
  if supera.writeEnabled then (.invalidParameter, none, supera)
  else if windowOffset > supera.windowSize then (.beyondEnd, none, supera)
  else
    let windowSize := if windowSize = ACCESSOR_UNTIL_END then supera.windowSize - windowOffset else windowSize
    if szAdd windowOffset windowSize > supera.windowSize then (.beyondEnd, none, supera)
    else
      let child := { createEmpty supera.endianness with
        windowOffset := windowOffset
        baseWindowOffset := szAdd windowOffset supera.baseWindowOffset
        windowSize := windowSize
        cursor := 0
        availableBytes := windowSize
        isBaseAccessor := false
        writeEnabled := false
        endianness := supera.endianness
        data := supera.data
        dataAllocated := supera.dataAllocated
        dataMaxSize := supera.dataMaxSize
        dataFileOffset := supera.dataFileOffset }
      (.ok, some child, { supera with referenceCount := supera.referenceCount + 1 })

/-! ### The operation step relation -/

/-- The public operations quantified over by the state-restoration and
    coverage claims: a representative of every operation family named by the
    spec (scalar and float reads, varint and zig-zag reads, array reads,
    block reads, string reads, pointer-exposing reads, seeks, scalar and
    varint writes, and the cursor stack). -/
inductive AccessorOp where
  | readEndianUInt (e : Endianness) (nbytes : Nat)
  | readEndianInt (e : Endianness) (nbytes : Nat)
  | readUInt32
  | readFloat32
  | readVarInt
  | readZigZagInt
  | readBytes (count : Nat)
  | readEndianUInt16Array (count : Nat) (e : Endianness) (allocOk : Bool)
  | readCString (allocOk : Bool)
  | getPointerForBytesToRead (count : Nat)
  | seek (offset : Int) (whence : Int) (allocOk : Bool) (junk : Nat)
  | writeEndianUInt (x : Nat) (e : Endianness) (nbytes : Nat) (allocOk : Bool) (junk : Nat)
  | writeVarInt (x : Nat) (allocOk : Bool) (junk : Nat)
  | writeZigZagInt (x : Int) (allocOk : Bool) (junk : Nat)
  | pushCursor (allocOk : Bool)
  | popCursor (allocOk : Bool) (junk : Nat)
  | dropCursor
  | truncate

/-- Run one operation, keeping the returned status and the post-state. -/
def step (hostIsBig : Bool) : AccessorOp → AccessorState → Status × AccessorState
  | .readEndianUInt e nbytes, s => let r := accessorReadEndianUInt hostIsBig s e nbytes; (r.1, r.2.2)
  | .readEndianInt e nbytes, s => let r := accessorReadEndianInt hostIsBig s e nbytes; (r.1, r.2.2)
  | .readUInt32, s => let r := accessorReadUInt32 hostIsBig s; (r.1, r.2.2)
  | .readFloat32, s => let r := accessorReadFloat32 hostIsBig s; (r.1, r.2.2)
  | .readVarInt, s => let r := accessorReadVarInt s; (r.1, r.2.2)
  | .readZigZagInt, s => let r := accessorReadZigZagInt s; (r.1, r.2.2)
  | .readBytes count, s => let r := accessorReadBytes s count; (r.1, r.2.2)
  | .readEndianUInt16Array count e allocOk, s =>
    let r := accessorReadEndianUInt16Array hostIsBig s count e allocOk; (r.1, r.2.2)
  | .readCString allocOk, s => let r := accessorReadCString s allocOk; (r.1, r.2.2.2)
  | .getPointerForBytesToRead count, s => let r := accessorGetPointerForBytesToRead s count; (r.1, r.2.2)
  | .seek offset whence allocOk junk, s => accessorSeek s offset whence allocOk junk
  | .writeEndianUInt x e nbytes allocOk junk, s => accessorWriteEndianUInt hostIsBig s x e nbytes allocOk junk
  | .writeVarInt x allocOk junk, s => accessorWriteVarInt s x allocOk junk
  | .writeZigZagInt x allocOk junk, s => accessorWriteZigZagInt s x allocOk junk
  | .pushCursor allocOk, s => accessorPushCursor s allocOk
  | .popCursor allocOk junk, s => accessorPopCursor s allocOk junk
  | .dropCursor, s => accessorDropCursor s
  | .truncate, s => accessorTruncate s

/-- The observable state named by the failure-transparency policy: cursor,
    availableBytes, windowSize and the coverage record array. -/
def obs (s : AccessorState) : Nat × Nat × Nat × List CoverageRecord :=
  (s.cursor, s.availableBytes, s.windowSize, s.coverageArray)

/-! ### Failure transparency (C1) -/

theorem accessorPrivateGrow_not_ok {s : AccessorState} {n : Nat} {a : Bool} {j : Nat}
    (h : (accessorPrivateGrow s n a j).1 ≠ .ok) : (accessorPrivateGrow s n a j).2 = s := by
  unfold accessorPrivateGrow at h ⊢
  split at h
  · simp at h
  · split at h
    · split at h
      · split <;> rfl
      · split at h
        · split <;> rfl
        · simp at h
    · simp at h

theorem accessorSeek_not_ok {s : AccessorState} {offset whence : Int} {a : Bool} {j : Nat}
    (h : (accessorSeek s offset whence a j).1 ≠ .ok) :
    (accessorSeek s offset whence a j).2 = s := by
  rcases hr : accessorSeek s offset whence a j with ⟨st, s2⟩
  rw [hr] at h
  simp only [hr]
  unfold accessorSeek at hr
  split at hr
  · injection hr with h1 h2; exact h2.symm
  · dsimp only [] at hr
    split at hr
    case h_1 s1 heq =>
      split at hr
      case isTrue hgt =>
        -- beyondEnd: find out which branch produced `afterGrow = (ok, s1)`
        split at heq
        case isTrue hwrite =>
          split at heq
          case h_1 s3 heq2 =>
            injection heq with e1 e2
            rw [← e2] at hgt
            simp only [] at hgt
            omega
          case h_2 hne2 =>
            exact absurd heq (hne2 s1)
        case isFalse hro =>
          injection heq with e1 e2
          injection hr with h1 h2
          rw [← h2, ← e2]
      case isFalse hle =>
        injection hr with h1 h2; exact absurd h1.symm h
    case h_2 hne =>
      split at hr
      case isTrue hwrite =>
        split at hr
        case h_1 s3 heq2 =>
          injection hr with h1 h2; exact absurd h1.symm h
        case h_2 hne2 =>
          split at hr
          case isTrue hgrew =>
            rw [if_pos hgrew] at hne2
            have hgrow : (accessorPrivateGrow s (seekNewCursor s offset whence) a j).1 ≠ .ok := by
              intro hok
              exact hne2 (accessorPrivateGrow s (seekNewCursor s offset whence) a j).2
                (by rw [← hok])
            have h2 := accessorPrivateGrow_not_ok hgrow
            rw [hr] at h2
            exact h2
          case isFalse hsmall =>
            rw [if_neg hsmall] at hne2
            exact absurd rfl (hne2 s)
      case isFalse hro =>
        injection hr with h1 h2; exact absurd h1.symm h

theorem accessorReadVarInt_not_ok {s : AccessorState}
    (h : (accessorReadVarInt s).1 ≠ .ok) : (accessorReadVarInt s).2.2 = s := by
  unfold accessorReadVarInt at h ⊢
  rcases hl : accessorReadVarIntLoop ((s.data.drop (s.baseWindowOffset + s.cursor)).take s.availableBytes) 0 0 0 with st | p
  · simp [hl]
  · simp [hl] at h

theorem accessorReadZigZagInt_not_ok {s : AccessorState}
    (h : (accessorReadZigZagInt s).1 ≠ .ok) : (accessorReadZigZagInt s).2.2 = s := by
  unfold accessorReadZigZagInt at h ⊢
  rcases hv : accessorReadVarInt s with ⟨st, v, s1⟩
  cases st
  case ok => rw [hv] at h; simp at h
  all_goals
    have h1 : (accessorReadVarInt s).1 ≠ .ok := by rw [hv]; simp
    have h2 := accessorReadVarInt_not_ok h1
    rw [hv] at h2
    simpa using h2

theorem accessorWriteEndianUInt_not_ok {hb : Bool} {s : AccessorState} {x : Nat} {e : Endianness}
    {n : Nat} {a : Bool} {j : Nat}
    (h : (accessorWriteEndianUInt hb s x e n a j).1 ≠ .ok) :
    (accessorWriteEndianUInt hb s x e n a j).2 = s := by
  rcases hr : accessorWriteEndianUInt hb s x e n a j with ⟨st, s2⟩
  rw [hr] at h
  simp only [hr]
  unfold accessorWriteEndianUInt at hr
  split at hr
  · injection hr with h1 h2; exact h2.symm
  · split at hr
    · injection hr with h1 h2; exact h2.symm
    · dsimp only [] at hr
      split at hr
      case h_1 s1 heq =>
        injection hr with h1 h2; exact absurd h1.symm h
      case h_2 hne =>
        split at hr
        case isTrue hgrew =>
          rw [if_pos hgrew] at hne
          have hgrow : (accessorPrivateGrow s (szAdd s.cursor n) a j).1 ≠ .ok := by
            intro hok
            exact hne (accessorPrivateGrow s (szAdd s.cursor n) a j).2 (by rw [← hok])
          have h2 := accessorPrivateGrow_not_ok hgrow
          rw [hr] at h2
          exact h2
        case isFalse hsmall =>
          rw [if_neg hsmall] at hne
          exact absurd rfl (hne s)

theorem accessorWriteVarInt_not_ok {s : AccessorState} {x : Nat} {a : Bool} {j : Nat}
    (h : (accessorWriteVarInt s x a j).1 ≠ .ok) :
    (accessorWriteVarInt s x a j).2 = s := by
  rcases hr : accessorWriteVarInt s x a j with ⟨st, s2⟩
  rw [hr] at h
  simp only [hr]
  unfold accessorWriteVarInt at hr
  split at hr
  · injection hr with h1 h2; exact h2.symm
  · dsimp only [] at hr
    split at hr
    case h_1 s1 heq =>
      injection hr with h1 h2; exact absurd h1.symm h
    case h_2 hne =>
      split at hr
      case isTrue hgrew =>
        rw [if_pos hgrew] at hne
        have hgrow : (accessorPrivateGrow s (szAdd s.cursor (varIntByteCount x)) a j).1 ≠ .ok := by
          intro hok
          exact hne (accessorPrivateGrow s (szAdd s.cursor (varIntByteCount x)) a j).2 (by rw [← hok])
        have h2 := accessorPrivateGrow_not_ok hgrow
        rw [hr] at h2
        exact h2
      case isFalse hsmall =>
        rw [if_neg hsmall] at hne
        exact absurd rfl (hne s)

/-- C1: every modelled public operation (reads, writes, seeks and
    cursor-stack operations) that returns a non-Ok status leaves the
    accessor's observable state - cursor, availableBytes, windowSize and the
    coverage record array - exactly as it was before the call. -/
theorem failed_ops_leave_observable_state_unchanged (hostIsBig : Bool) (op : AccessorOp)
    (s : AccessorState) (h : (step hostIsBig op s).1 ≠ .ok) :
    obs (step hostIsBig op s).2 = obs s := by
  cases op with
  | readEndianUInt e n =>
    dsimp only [step, accessorReadEndianUInt] at h ⊢
    split_ifs at h ⊢ <;> simp_all
  | readEndianInt e n =>
    dsimp only [step, accessorReadEndianInt] at h ⊢
    split_ifs at h ⊢ <;> simp_all
  | readUInt32 =>
    dsimp only [step, accessorReadUInt32] at h ⊢
    split_ifs at h ⊢ <;> simp_all
  | readFloat32 =>
    dsimp only [step, accessorReadFloat32, accessorReadUInt32] at h ⊢
    split_ifs at h ⊢ <;> simp_all
  | readVarInt =>
    dsimp only [step] at h ⊢
    rw [accessorReadVarInt_not_ok h]
  | readZigZagInt =>
    dsimp only [step] at h ⊢
    rw [accessorReadZigZagInt_not_ok h]
  | readBytes count =>
    dsimp only [step, accessorReadBytes] at h ⊢
    split_ifs at h ⊢ <;> simp_all
  | readEndianUInt16Array count e allocOk =>
    dsimp only [step, accessorReadEndianUInt16Array] at h ⊢
    split_ifs at h ⊢ <;> simp_all
  | readCString allocOk =>
    dsimp only [step, accessorReadCString] at h ⊢
    split_ifs at h ⊢ <;> simp_all
  | getPointerForBytesToRead count =>
    dsimp only [step, accessorGetPointerForBytesToRead] at h ⊢
    split_ifs at h ⊢ <;> simp_all
  | seek offset whence allocOk junk =>
    dsimp only [step] at h ⊢
    rw [accessorSeek_not_ok h]
  | writeEndianUInt x e n allocOk junk =>
    dsimp only [step] at h ⊢
    rw [accessorWriteEndianUInt_not_ok h]
  | writeVarInt x allocOk junk =>
    dsimp only [step] at h ⊢
    rw [accessorWriteVarInt_not_ok h]
  | writeZigZagInt x allocOk junk =>
    dsimp only [step, accessorWriteZigZagInt] at h ⊢
    split_ifs at h ⊢ <;> rw [accessorWriteVarInt_not_ok h]
  | pushCursor allocOk =>
    dsimp only [step, accessorPushCursor] at h ⊢
    split_ifs at h ⊢ <;> simp_all
  | popCursor allocOk junk =>
    dsimp only [step, accessorPopCursor] at h ⊢
    split_ifs at h ⊢
    · rfl
    · rw [accessorSeek_not_ok h]; rfl
  | dropCursor =>
    dsimp only [step, accessorDropCursor] at h ⊢
    split_ifs at h ⊢ <;> simp_all
  | truncate =>
    dsimp only [step, accessorTruncate] at h ⊢
    split_ifs at h ⊢ <;> simp_all

/-- Witness for C1 at a concrete input: reading a 9-byte integer is rejected
    with InvalidParameter and the observable state survives. -/
theorem failed_ops_leave_observable_state_unchanged_witness :
    (step true (.readEndianUInt .big 9) (createEmpty .big)).1 ≠ .ok ∧
    obs (step true (.readEndianUInt .big 9) (createEmpty .big)).2 = obs (createEmpty .big) :=
  ⟨by decide, failed_ops_leave_observable_state_unchanged true (.readEndianUInt .big 9)
    (createEmpty .big) (by decide)⟩

/-! ### Coverage recording on successful reads (C2) -/

/-- A one-byte read-only accessor with coverage enabled and not suspended:
    window `[0, 1)` over the single byte `0x05`. -/
def coverageProbeState : AccessorState :=
  { createEmpty .big with
    data := [5]
    dataAllocated := true
    windowSize := 1
    availableBytes := 1
    dataMaxSize := 1
    coverageEnabled := true }

/-- C2 (failing input): on an accessor with coverage enabled and suspend
    count zero, `accessorReadVarInt` succeeds, consumes one byte, and still
    appends no coverage record: the source of `accessorReadVarInt` (and of
    `accessorReadZigZagInt`, which delegates to it) contains no
    `accessorPrivateOpenCoverage`/`accessorPrivateCloseCoverage` pair, even
    though the read section of accessor.h documents that read operations add
    a coverage record when coverage is enabled and not suspended. -/
theorem varint_read_appends_no_coverage_record :
    coverageProbeState.coverageEnabled = true ∧
    coverageProbeState.coverageSuspendCount = 0 ∧
    (accessorReadVarInt coverageProbeState).1 = .ok ∧
    (accessorReadVarInt coverageProbeState).2.1 = 5 ∧
    (accessorReadVarInt coverageProbeState).2.2.cursor = coverageProbeState.cursor + 1 ∧
    (accessorReadVarInt coverageProbeState).2.2.coverageArray = coverageProbeState.coverageArray := by
  refine ⟨rfl, rfl, ?_, ?_, ?_, ?_⟩ <;> decide

/-! ### Closing (C3) -/

/-- The externally visible cleanup actions `accessorClose` can perform, in
    program order. -/
inductive CloseAction where
  | decrementedReferenceCount
  | flushedData
  | closedInput
  | closedOutput
  | unmappedData
  | freedData
  | closedSuper
  | freedCursorStack
  | freedCoverageArray
  | freedAccessor
deriving DecidableEq, Repr

/-- `accessorClose` (accessor.c), as the returned status plus the list of
    cleanup actions performed, in source order.  `writeOk` tells whether the
    `write` of `data[0, windowSize)` to the output descriptor transfers the
    full size (a negative or short transfer yields WriteError).  For a
    sub-accessor the recursive close of the super accessor is abstracted as
    the single action `closedSuper` (assumed to succeed). -/
def accessorClose (s : AccessorState) (writeOk : Bool) : Status × List CloseAction :=
  if s.referenceCount > 0 then (.ok, [.decrementedReferenceCount])
  else
    let flushNeeded := s.writeOnClose ∧ s.outputFileDescriptor ≠ -1 ∧ s.dataAllocated
    if flushNeeded ∧ ¬ writeOk then (.writeError, [])
    else
      (.ok,
        (if flushNeeded then [CloseAction.flushedData] else []) ++
        (if s.inputFileDescriptor ≠ -1 then [CloseAction.closedInput] else []) ++
        (if s.outputFileDescriptor ≠ -1 then [CloseAction.closedOutput] else []) ++
        (if s.isBaseAccessor then
          (if s.isMapped then [CloseAction.unmappedData] else []) ++
          (if s.freeOnClose ∧ s.dataAllocated then [CloseAction.freedData] else [])
        else [CloseAction.closedSuper]) ++
        (if s.cursorStackAllocation ≠ 0 then [CloseAction.freedCursorStack] else []) ++
        (if s.coverageArrayAllocation ≠ 0 then [CloseAction.freedCoverageArray] else []) ++
        [CloseAction.freedAccessor])

/-- A write-to-file base accessor about to be closed: pending output
    descriptor, one buffered byte, heap buffer owned by the accessor. -/
def closeProbeState : AccessorState :=
  { createEmpty .big with
    writeOnClose := true
    outputFileDescriptor := 3
    dataAllocated := true
    freeOnClose := true
    mayBeReallocated := true
    writeEnabled := true
    data := [0]
    dataMaxSize := 1
    windowSize := 1 }

/-- C3 counterexample: when the flush to the output descriptor fails,
    `accessorClose` returns WriteError by an early `return` and performs no
    cleanup at all - in particular it does not close the output descriptor
    and does not free the data buffer, contrary to the claim. -/
theorem close_flush_failure_counterexample :
    accessorClose closeProbeState false = (.writeError, []) ∧
    CloseAction.closedOutput ∉ (accessorClose closeProbeState false).2 ∧
    CloseAction.freedData ∉ (accessorClose closeProbeState false).2 := by
  refine ⟨by decide, by decide, by decide⟩

/-- C3 (amended): if `accessorClose` is called on an accessor with no live
    sub-views whose buffered data must be flushed (`writeOnClose`, an open
    output descriptor and a data buffer) and the flush fails, it returns
    WriteError and performs no cleanup action: descriptors stay open, the
    buffer and the auxiliary storage are not freed, and the handle stays
    live. -/
theorem close_flush_failure_performs_no_cleanup (s : AccessorState)
    (href : s.referenceCount = 0) (hwc : s.writeOnClose = true)
    (hfd : s.outputFileDescriptor ≠ -1) (hdata : s.dataAllocated = true) :
    accessorClose s false = (.writeError, []) := by
  unfold accessorClose
  rw [if_neg (by omega)]
  rw [if_pos ⟨⟨hwc, hfd, hdata⟩, by simp⟩]

/-- Witness for the amended C3 theorem at the concrete write-to-file
    accessor. -/
theorem close_flush_failure_performs_no_cleanup_witness :
    accessorClose closeProbeState false = (.writeError, []) :=
  close_flush_failure_performs_no_cleanup closeProbeState (by decide) (by decide)
    (by decide) (by decide)

/-! ### Sub-view offset composition (C8) -/

theorem szAdd_left_mod (a b c : Nat) : szAdd (szAdd a b) c = (a + b + c) % SZ := by
  simp [szAdd, Nat.mod_add_mod]

theorem szAdd_lt (a b : Nat) : szAdd a b < SZ :=
  Nat.mod_lt _ (by norm_num [SZ])

theorem szAdd_comm (a b : Nat) : szAdd a b = szAdd b a := by
  simp [szAdd, Nat.add_comm]

theorem openReadingAccessorBytes_success {supera : AccessorState} {count : Nat} {st : Status}
    {b supera' : AccessorState}
    (h : accessorOpenReadingAccessorBytes supera count = (st, some b, supera')) :
    b.baseWindowOffset = szAdd supera.baseWindowOffset supera.cursor ∧
    b.windowOffset = supera.cursor ∧ b.dataFileOffset = supera.dataFileOffset := by
  unfold accessorOpenReadingAccessorBytes at h
  split at h
  · simp at h
  · dsimp only [] at h
    split at h <;> split at h <;> simp only [Prod.mk.injEq, Option.some.injEq] at h <;>
      first
        | (exfalso; simp at h; done)
        | (rw [← h.2.1]; exact ⟨rfl, rfl, rfl⟩)

theorem openReadingAccessorWindow_success {supera : AccessorState} {off size : Nat} {st : Status}
    {b supera' : AccessorState}
    (h : accessorOpenReadingAccessorWindow supera off size = (st, some b, supera')) :
    b.baseWindowOffset = szAdd off supera.baseWindowOffset ∧
    b.windowOffset = off ∧ b.dataFileOffset = supera.dataFileOffset := by
  unfold accessorOpenReadingAccessorWindow at h
  split at h
  · simp at h
  · split at h
    · simp at h
    · dsimp only [] at h
      split at h <;> split at h <;> simp only [Prod.mk.injEq, Option.some.injEq] at h <;>
        first
          | (exfalso; simp at h; done)
          | (rw [← h.2.1]; exact ⟨rfl, rfl, rfl⟩)

/-- A chain of nested sub-views built by `accessorOpenReadingAccessorWindow`
    from a starting accessor: one `(windowOffset, windowSize)` pair per
    level. -/
def openChain (s : AccessorState) : List (Nat × Nat) → Option AccessorState
  | [] => some s
  | (off, size) :: rest =>
    match accessorOpenReadingAccessorWindow s off size with
    | (.ok, some child, _) => openChain child rest
    | _ => none

/-- C8: for every sub-view `b` of `a` created by
    `accessorOpenReadingAccessorBytes` or `accessorOpenReadingAccessorWindow`,
    `accessorRootWindowOffset b = accessorRootWindowOffset a + b.windowOffset`
    (as 64-bit `size_t` arithmetic, and exactly whenever the sum does not
    wrap), and along any chain of nested sub-views the window offsets add up
    on top of the base's root window offset (which itself includes a mapped
    base's `dataFileOffset` plus page-skew `baseWindowOffset`). -/
theorem subview_root_window_offset_composes :
    (∀ (supera : AccessorState) (count : Nat) (st : Status) (b supera' : AccessorState),
      accessorOpenReadingAccessorBytes supera count = (st, some b, supera') →
      accessorRootWindowOffset b = szAdd (accessorRootWindowOffset supera) b.windowOffset ∧
      (supera.baseWindowOffset + supera.dataFileOffset + b.windowOffset < SZ →
        accessorRootWindowOffset b = accessorRootWindowOffset supera + b.windowOffset)) ∧
    (∀ (supera : AccessorState) (off size : Nat) (st : Status) (b supera' : AccessorState),
      accessorOpenReadingAccessorWindow supera off size = (st, some b, supera') →
      accessorRootWindowOffset b = szAdd (accessorRootWindowOffset supera) b.windowOffset ∧
      (supera.baseWindowOffset + supera.dataFileOffset + b.windowOffset < SZ →
        accessorRootWindowOffset b = accessorRootWindowOffset supera + b.windowOffset)) ∧
    (∀ (base : AccessorState) (l : List (Nat × Nat)) (c : AccessorState),
      openChain base l = some c →
      accessorRootWindowOffset c = (accessorRootWindowOffset base + (l.map Prod.fst).sum) % SZ) := by
  have key : ∀ (bwo dfo w : Nat),
      szAdd (szAdd bwo w) dfo = szAdd (szAdd bwo dfo) w := by
    intro bwo dfo w
    rw [szAdd_left_mod, szAdd_left_mod, Nat.add_right_comm]
  have exact_of_lt : ∀ (bwo dfo w : Nat), bwo + dfo + w < SZ →
      szAdd (szAdd bwo w) dfo = szAdd bwo dfo + w := by
    intro bwo dfo w hlt
    rw [szAdd_left_mod, Nat.add_right_comm, Nat.mod_eq_of_lt hlt, szAdd,
      Nat.mod_eq_of_lt (by omega)]
  refine ⟨?_, ?_, ?_⟩
  · intro supera count st b supera' h
    obtain ⟨h1, h2, h3⟩ := openReadingAccessorBytes_success h
    constructor
    · rw [accessorRootWindowOffset, accessorRootWindowOffset, h1, h2, h3, key]
    · intro hlt
      rw [h2] at hlt ⊢
      rw [accessorRootWindowOffset, accessorRootWindowOffset, h1, h3,
        exact_of_lt _ _ _ hlt]
  · intro supera off size st b supera' h
    obtain ⟨h1, h2, h3⟩ := openReadingAccessorWindow_success h
    constructor
    · rw [accessorRootWindowOffset, accessorRootWindowOffset, h1, h2, h3, szAdd_comm off,
        key]
    · intro hlt
      rw [h2] at hlt ⊢
      rw [accessorRootWindowOffset, accessorRootWindowOffset, h1, h3, szAdd_comm off,
        exact_of_lt _ _ _ hlt]
  · intro base l
    induction l generalizing base with
    | nil =>
      intro c h
      injection h with h
      rw [← h]
      simp [Nat.mod_eq_of_lt (szAdd_lt base.baseWindowOffset base.dataFileOffset),
        accessorRootWindowOffset]
    | cons p rest ih =>
      rcases p with ⟨off, size⟩
      intro c h
      unfold openChain at h
      split at h
      case h_1 child supera' heq =>
        obtain ⟨h1, h2, h3⟩ := openReadingAccessorWindow_success heq
        have hroot := ih child c h
        rw [hroot, accessorRootWindowOffset, accessorRootWindowOffset, h1, h3]
        simp only [szAdd, List.map_cons, List.sum_cons, Nat.mod_add_mod, Nat.add_mod_mod]
        congr 1
        omega
      case h_2 =>
        simp at h

/-- A mapped-style base for the C8 witness: page skew 3 (`windowOffset` and
    `baseWindowOffset`), mapped file offset 5 (`dataFileOffset`), 8-byte
    window inside a 16-byte mapping. -/
def chainProbeBase : AccessorState :=
  { createEmpty .big with
    data := List.replicate 16 0
    dataAllocated := true
    isMapped := true
    windowOffset := 3
    baseWindowOffset := 3
    windowSize := 8
    availableBytes := 8
    dataMaxSize := 16
    dataFileOffset := 5 }

/-- Witness for C8: a two-level window chain at offsets 1 and 1 over
    `chainProbeBase`; the root window offset of the innermost view is
    3 + 5 + 1 + 1 = 10. -/
theorem subview_root_window_offset_composes_witness :
    ∃ c : AccessorState,
      openChain chainProbeBase [(1, 6), (1, 4)] = some c ∧
      accessorRootWindowOffset c = 10 := by
  refine ⟨_, rfl, ?_⟩
  have := subview_root_window_offset_composes.2.2 chainProbeBase [(1, 6), (1, 4)] _ rfl
  rw [this]
  decide

/-! ### Seek behaviour (C5) -/

theorem getD_replicate_zero (n k : Nat) : (List.replicate n 0).getD k 0 = 0 := by
  induction n generalizing k with
  | zero => simp [List.getD]
  | succ m ih =>
    cases k with
    | zero => simp [List.replicate, List.getD]
    | succ k => simpa [List.replicate] using ih k

theorem storeBytes_getD_inside (d : List Nat) (p : Nat) (bs : List Nat) (i : Nat)
    (hp : p ≤ d.length) (hi : p ≤ i) (hlt : i < p + bs.length) :
    (storeBytes d p bs).getD i 0 = bs.getD (i - p) 0 := by
  unfold storeBytes
  have hlen : (d.take p).length = p := by simp [List.length_take]; omega
  rw [List.append_assoc, List.getD_append_right _ _ _ _ (by omega), hlen,
    List.getD_append _ _ _ _ (by omega)]

theorem reallocBytes_length (d : List Nat) (n junk : Nat) (h : d.length ≤ n) :
    (reallocBytes d n junk).length = n := by
  unfold reallocBytes
  simp [List.length_take]
  omega

/-- The invariants of a live write-enabled base accessor, as established by
    `accessorOpenWritingMemory`/`accessorOpenWritingFile` and preserved by
    the write operations (the 2^62 bounds keep the `size_t` arithmetic of
    growing exact; real accessors stay far below them). -/
def WriteWF (s : AccessorState) : Prop :=
  s.writeEnabled = true ∧ s.isBaseAccessor = true ∧
  s.windowOffset = 0 ∧ s.baseWindowOffset = 0 ∧
  s.mayBeReallocated = true ∧ 0 < s.granularity ∧ s.granularity < 2 ^ 62 ∧
  s.cursor ≤ s.windowSize ∧ s.availableBytes = s.windowSize - s.cursor ∧
  s.windowSize ≤ s.dataMaxSize ∧ s.data.length = s.dataMaxSize ∧
  s.windowSize < 2 ^ 62 ∧ s.dataMaxSize < 2 ^ 62

instance (s : AccessorState) : Decidable (WriteWF s) := by
  unfold WriteWF; infer_instance

theorem szAdd_zero_left (b : Nat) (h : b < SZ) : szAdd 0 b = b := by
  simp [szAdd, Nat.mod_eq_of_lt h]

theorem roundUp_ge (x m : Nat) (hx : x < 2 ^ 62) (hm0 : 0 < m) (hm : m < 2 ^ 62) :
    x ≤ accessorPrivateRoundUpwardsToNonNullMultiple x m ∧
    accessorPrivateRoundUpwardsToNonNullMultiple x m < 2 ^ 63 := by
  unfold accessorPrivateRoundUpwardsToNonNullMultiple
  have hmod : x % m < m := Nat.mod_lt _ hm0
  have hle : x % m ≤ x := Nat.mod_le _ _
  rw [Nat.mod_eq_of_lt (by norm_num [SZ]; omega)]
  omega

theorem accessorPrivateGrow_realloc_spec (s : AccessorState) (n junk : Nat)
    (hwo : s.windowOffset = 0) (hmay : s.mayBeReallocated = true)
    (hws : s.windowSize < n) (hwsz : s.windowSize < SZ) (hdm : s.dataMaxSize < n) :
    accessorPrivateGrow s n true junk =
      (.ok, { s with
        data := reallocBytes s.data (accessorPrivateRoundUpwardsToNonNullMultiple n s.granularity) junk
        dataMaxSize := accessorPrivateRoundUpwardsToNonNullMultiple n s.granularity
        windowSize := n
        availableBytes := szSub n s.cursor }) := by
  unfold accessorPrivateGrow
  rw [hwo, szAdd_zero_left _ hwsz, if_neg (by omega), if_pos hdm, hmay]
  simp

theorem accessorPrivateGrow_inplace_spec (s : AccessorState) (n : Nat) (allocOk : Bool) (junk : Nat)
    (hwo : s.windowOffset = 0) (hws : s.windowSize < n) (hwsz : s.windowSize < SZ)
    (hdm : n ≤ s.dataMaxSize) :
    accessorPrivateGrow s n allocOk junk =
      (.ok, { s with windowSize := n, availableBytes := szSub n s.cursor }) := by
  unfold accessorPrivateGrow
  rw [hwo, szAdd_zero_left _ hwsz, if_neg (by omega), if_neg (by omega)]
  simp [hwo]

theorem szSub_self (a : Nat) : szSub a a = 0 := by
  unfold szSub
  have h : a % SZ < SZ := Nat.mod_lt _ (by norm_num [SZ])
  have h2 : a % SZ + (SZ - a % SZ) = SZ := by omega
  simp [h2]

theorem szSub_eq_sub (a b : Nat) (hb : b ≤ a) (ha : a < SZ) : szSub a b = a - b := by
  unfold szSub
  rw [Nat.mod_eq_of_lt ha, Nat.mod_eq_of_lt (lt_of_le_of_lt hb ha)]
  have h : a + (SZ - b) = SZ + (a - b) := by omega
  rw [h, Nat.add_mod_left, Nat.mod_eq_of_lt (by omega)]

theorem accessorSeek_write_grow_eq (s : AccessorState) (offset whence : Int) (junk : Nat)
    (hWF : WriteWF s) (hv : whence = 0 ∨ whence = 1 ∨ whence = 2)
    (hgt : seekNewCursor s offset whence > s.windowSize)
    (hbig : seekNewCursor s offset whence > s.dataMaxSize) :
    accessorSeek s offset whence true junk =
      (.ok, { s with
        data := storeBytes
          (reallocBytes s.data
            (accessorPrivateRoundUpwardsToNonNullMultiple (seekNewCursor s offset whence) s.granularity) junk)
          s.windowSize (List.replicate (szSub (seekNewCursor s offset whence) s.windowSize) 0)
        dataMaxSize := accessorPrivateRoundUpwardsToNonNullMultiple (seekNewCursor s offset whence) s.granularity
        windowSize := seekNewCursor s offset whence
        cursor := seekNewCursor s offset whence
        availableBytes := 0 }) := by
  obtain ⟨hwe, hbase, hwo, hbwo, hmay, hg0, hgu, hcur, hav, hwsdm, hdl, hws62, hdm62⟩ := hWF
  unfold accessorSeek
  rw [if_neg (by tauto)]
  dsimp only []
  rw [if_pos ⟨hwe, hgt⟩, if_pos hbig,
    accessorPrivateGrow_realloc_spec s _ junk hwo hmay hgt (by norm_num [SZ]; omega) hbig]
  dsimp only []
  rw [if_neg (by omega), szSub_self]

theorem accessorSeek_write_inplace_eq (s : AccessorState) (offset whence : Int)
    (allocOk : Bool) (junk : Nat)
    (hWF : WriteWF s) (hv : whence = 0 ∨ whence = 1 ∨ whence = 2)
    (hgt : seekNewCursor s offset whence > s.windowSize)
    (hsmall : seekNewCursor s offset whence ≤ s.dataMaxSize) :
    accessorSeek s offset whence allocOk junk =
      (.ok, { s with
        data := storeBytes s.data s.windowSize
          (List.replicate (szSub (seekNewCursor s offset whence) s.windowSize) 0)
        windowSize := seekNewCursor s offset whence
        cursor := seekNewCursor s offset whence
        availableBytes := 0 }) := by
  obtain ⟨hwe, hbase, hwo, hbwo, hmay, hg0, hgu, hcur, hav, hwsdm, hdl, hws62, hdm62⟩ := hWF
  unfold accessorSeek
  rw [if_neg (by tauto)]
  dsimp only []
  rw [if_pos ⟨hwe, hgt⟩, if_neg (by omega)]
  dsimp only []
  rw [if_neg (by omega), szSub_self]

theorem accessorSeek_in_range_eq (s : AccessorState) (offset whence : Int)
    (allocOk : Bool) (junk : Nat)
    (hv : whence = 0 ∨ whence = 1 ∨ whence = 2)
    (hle : seekNewCursor s offset whence ≤ s.windowSize) :
    accessorSeek s offset whence allocOk junk =
      (.ok, { s with cursor := seekNewCursor s offset whence
                     availableBytes := szSub s.windowSize (seekNewCursor s offset whence) }) := by
  unfold accessorSeek
  rw [if_neg (by tauto)]
  dsimp only []
  rw [if_neg (by omega)]
  dsimp only []
  rw [if_neg (by omega)]

theorem accessorSeek_readonly_beyond_eq (s : AccessorState) (offset whence : Int)
    (allocOk : Bool) (junk : Nat)
    (hro : s.writeEnabled = false) (hv : whence = 0 ∨ whence = 1 ∨ whence = 2)
    (hgt : seekNewCursor s offset whence > s.windowSize) :
    accessorSeek s offset whence allocOk junk = (.beyondEnd, s) := by
  unfold accessorSeek
  rw [if_neg (by tauto)]
  dsimp only []
  rw [if_neg (by simp [hro])]
  dsimp only []
  rw [if_pos hgt]

/-- C5: `accessorSeek` rejects any whence other than SEEK_SET/SEEK_CUR/SEEK_END
    with InvalidParameter.  For a write-enabled accessor, seeking to a new
    cursor beyond `windowSize` zero-fills `[old windowSize, new cursor)`,
    sets `windowSize` (and the cursor) to the new cursor, growing the
    underlying buffer when the new cursor exceeds `dataMaxSize`, and
    succeeds; for a read-only accessor seeking past `windowSize` returns
    BeyondEnd; and every in-range seek sets the cursor to the computed
    position and `availableBytes` to `windowSize` minus the cursor. -/
theorem accessorSeek_spec :
    (∀ (s : AccessorState) (offset whence : Int) (allocOk : Bool) (junk : Nat),
      whence ≠ 0 → whence ≠ 1 → whence ≠ 2 →
      accessorSeek s offset whence allocOk junk = (.invalidParameter, s)) ∧
    (∀ (s : AccessorState) (offset whence : Int) (junk : Nat),
      WriteWF s → (whence = 0 ∨ whence = 1 ∨ whence = 2) →
      seekNewCursor s offset whence > s.windowSize →
      seekNewCursor s offset whence < 2 ^ 62 →
      (accessorSeek s offset whence true junk).1 = .ok ∧
      (accessorSeek s offset whence true junk).2.cursor = seekNewCursor s offset whence ∧
      (accessorSeek s offset whence true junk).2.windowSize = seekNewCursor s offset whence ∧
      (accessorSeek s offset whence true junk).2.availableBytes = 0 ∧
      seekNewCursor s offset whence ≤ (accessorSeek s offset whence true junk).2.dataMaxSize ∧
      (∀ i, s.windowSize ≤ i → i < seekNewCursor s offset whence →
        (accessorSeek s offset whence true junk).2.data.getD i 0 = 0)) ∧
    (∀ (s : AccessorState) (offset whence : Int) (allocOk : Bool) (junk : Nat),
      s.writeEnabled = false → (whence = 0 ∨ whence = 1 ∨ whence = 2) →
      seekNewCursor s offset whence > s.windowSize →
      accessorSeek s offset whence allocOk junk = (.beyondEnd, s)) ∧
    (∀ (s : AccessorState) (offset whence : Int) (allocOk : Bool) (junk : Nat),
      s.windowSize < SZ → (whence = 0 ∨ whence = 1 ∨ whence = 2) →
      seekNewCursor s offset whence ≤ s.windowSize →
      accessorSeek s offset whence allocOk junk =
        (.ok, { s with cursor := seekNewCursor s offset whence
                       availableBytes := s.windowSize - seekNewCursor s offset whence })) := by
  refine ⟨?_, ?_, ?_, ?_⟩
  · intro s offset whence allocOk junk h0 h1 h2
    unfold accessorSeek
    rw [if_pos ⟨h0, h1, h2⟩]
  · intro s offset whence junk hWF hv hgt hnc
    obtain ⟨hwe, hbase, hwo, hbwo, hmay, hg0, hgu, hcur, hav, hwsdm, hdl, hws62, hdm62⟩ := hWF
    by_cases hbig : seekNewCursor s offset whence > s.dataMaxSize
    · rw [accessorSeek_write_grow_eq s offset whence junk
        ⟨hwe, hbase, hwo, hbwo, hmay, hg0, hgu, hcur, hav, hwsdm, hdl, hws62, hdm62⟩ hv hgt hbig]
      obtain ⟨hge, hub⟩ := roundUp_ge (seekNewCursor s offset whence) s.granularity hnc hg0 hgu
      refine ⟨rfl, rfl, rfl, rfl, by dsimp only []; exact hge, ?_⟩
      intro i hi hilt
      have hrl : (reallocBytes s.data
          (accessorPrivateRoundUpwardsToNonNullMultiple (seekNewCursor s offset whence) s.granularity)
          junk).length =
          accessorPrivateRoundUpwardsToNonNullMultiple (seekNewCursor s offset whence) s.granularity :=
        reallocBytes_length _ _ _ (by omega)
      dsimp only []
      rw [storeBytes_getD_inside _ _ _ _ (by omega) hi
        (by rw [List.length_replicate, szSub_eq_sub _ _ (by omega) (by norm_num [SZ]; omega)]; omega)]
      exact getD_replicate_zero _ _
    · rw [accessorSeek_write_inplace_eq s offset whence true junk
        ⟨hwe, hbase, hwo, hbwo, hmay, hg0, hgu, hcur, hav, hwsdm, hdl, hws62, hdm62⟩ hv hgt (by omega)]
      refine ⟨rfl, rfl, rfl, rfl, by dsimp only []; omega, ?_⟩
      intro i hi hilt
      dsimp only []
      rw [storeBytes_getD_inside _ _ _ _ (by omega) hi
        (by rw [List.length_replicate, szSub_eq_sub _ _ (by omega) (by norm_num [SZ]; omega)]; omega)]
      exact getD_replicate_zero _ _
  · intro s offset whence allocOk junk hro hv hgt
    exact accessorSeek_readonly_beyond_eq s offset whence allocOk junk hro hv hgt
  · intro s offset whence allocOk junk hlt hv hle
    rw [accessorSeek_in_range_eq s offset whence allocOk junk hv hle,
      szSub_eq_sub _ _ hle hlt]

/-- A small writing-memory-style accessor for the C5 witness: granularity 4,
    4 bytes allocated, 2 bytes written so far. -/
def seekProbeState : AccessorState :=
  { createEmpty .big with
    writeEnabled := true
    mayBeReallocated := true
    dataAllocated := true
    freeOnClose := true
    granularity := 4
    data := List.replicate 4 7
    dataMaxSize := 4
    windowSize := 2
    availableBytes := 2 }

/-- Witness for C5: a 4-byte writing-memory-style accessor, seeking with
    SEEK_SET to offset 6 grows the window from 2 to 6 and zero-fills bytes
    2..5; an in-range SEEK_END to -1 sets the cursor to 5. -/
theorem accessorSeek_spec_witness :
    ((accessorSeek seekProbeState 6 0 true 170).1 = .ok ∧
      (accessorSeek seekProbeState 6 0 true 170).2.windowSize = 6 ∧
      (accessorSeek seekProbeState 6 0 true 170).2.data.getD 3 0 = 0) ∧
    accessorSeek { seekProbeState with windowSize := 6, availableBytes := 6 } (-1) 2 true 170 =
      (.ok, { seekProbeState with windowSize := 6, cursor := 5, availableBytes := 1 }) := by
  constructor
  · obtain ⟨h1, h2, h3, h4, h5, h6⟩ := accessorSeek_spec.2.1 seekProbeState 6 0 170
      (by decide) (by decide) (by decide) (by decide)
    exact ⟨h1, h3, h6 3 (by decide) (by decide)⟩
  · have := accessorSeek_spec.2.2.2 { seekProbeState with windowSize := 6, availableBytes := 6 }
      (-1) 2 true 170 (by decide) (by decide) (by decide)
    rw [this]
    decide

/-! ### Signed N-byte reads (C4) -/

theorem lor_shiftLeft_eq_add (a c m : Nat) (h : a < 2 ^ m) :
    a ||| c <<< m = a + c <<< m := by
  apply Nat.eq_of_testBit_eq
  intro i
  conv_rhs => rw [Nat.shiftLeft_eq]
  rw [Nat.testBit_lor, Nat.testBit_shiftLeft,
    show a + c * 2 ^ m = 2 ^ m * c + a by ring, Nat.testBit_mul_pow_two_add c h i]
  rcases lt_or_ge i m with hi | hi
  · simp [hi, Nat.not_le.2 hi]
  · have ha : a.testBit i = false :=
      Nat.testBit_lt_two_pow (lt_of_lt_of_le h (Nat.pow_le_pow_right (by norm_num) hi))
    simp [ha, Nat.not_lt.2 hi, hi]

theorem lor_mul_pow_eq_add (a c m : Nat) (h : a < 2 ^ m) :
    a ||| c * 2 ^ m = a + c * 2 ^ m := by
  have := lor_shiftLeft_eq_add a c m h
  rwa [Nat.shiftLeft_eq] at this

/-- The result component of the signed big-endian loop is the unsigned
    big-endian fold. -/
theorem readIntLoopBig_result (bs : List Nat) :
    ∀ (i r sb se : Nat), (readIntLoopBig bs i r sb se).1 = readUIntLoopBig bs r := by
  induction bs with
  | nil => intro i r sb se; rfl
  | cons b rest ih =>
    intro i r sb se
    unfold readIntLoopBig readUIntLoopBig
    by_cases hi : i = 0 <;> simp [hi, ih]

/-- The result component of the signed little-endian loop is the unsigned
    little-endian fold. -/
theorem readIntLoopLittle_result (bs : List Nat) :
    ∀ (i r sb se : Nat), (readIntLoopLittle bs i r sb se).1 = readUIntLoopLittle bs i r := by
  induction bs with
  | nil => intro i r sb se; rfl
  | cons b rest ih =>
    intro i r sb se
    unfold readIntLoopLittle readUIntLoopLittle
    by_cases hi : i = 0 <;> simp [hi, ih]

theorem shiftLeft_mod_shiftLeft (x k l : Nat) :
    (((x <<< k) % SZ) <<< l) % SZ = (x <<< (k + l)) % SZ := by
  rw [Nat.shiftLeft_eq (x <<< k % SZ) l, Nat.shiftLeft_eq x (k + l), pow_add,
    ← Nat.mul_assoc, Nat.mod_mul_mod, Nat.shiftLeft_eq]

/-- From the second byte on, the signed loops shift both masks left by 8 for
    every processed byte (big-endian branch). -/
theorem readIntLoopBig_masks_aux (bs : List Nat) :
    ∀ (i r sb se : Nat), 1 ≤ i → sb < SZ → se < SZ →
      (readIntLoopBig bs i r sb se).2 =
        ((sb <<< (8 * bs.length)) % SZ, (se <<< (8 * bs.length)) % SZ) := by
  induction bs with
  | nil =>
    intro i r sb se hi hsb hse
    simp [readIntLoopBig, Nat.mod_eq_of_lt hsb, Nat.mod_eq_of_lt hse]
  | cons b rest ih =>
    intro i r sb se hi hsb hse
    unfold readIntLoopBig
    rw [if_neg (by omega)]
    rw [ih (i + 1) _ _ _ (by omega) (Nat.mod_lt _ (by norm_num [SZ])) (Nat.mod_lt _ (by norm_num [SZ]))]
    simp only [List.length_cons, Prod.mk.injEq]
    refine ⟨?_, ?_⟩ <;>
      rw [shiftLeft_mod_shiftLeft, show 8 + 8 * rest.length = 8 * (rest.length + 1) from by ring]

/-- Mask shifting for the little-endian branch. -/
theorem readIntLoopLittle_masks_aux (bs : List Nat) :
    ∀ (i r sb se : Nat), 1 ≤ i → sb < SZ → se < SZ →
      (readIntLoopLittle bs i r sb se).2 =
        ((sb <<< (8 * bs.length)) % SZ, (se <<< (8 * bs.length)) % SZ) := by
  induction bs with
  | nil =>
    intro i r sb se hi hsb hse
    simp [readIntLoopLittle, Nat.mod_eq_of_lt hsb, Nat.mod_eq_of_lt hse]
  | cons b rest ih =>
    intro i r sb se hi hsb hse
    unfold readIntLoopLittle
    rw [if_neg (by omega)]
    rw [ih (i + 1) _ _ _ (by omega) (Nat.mod_lt _ (by norm_num [SZ])) (Nat.mod_lt _ (by norm_num [SZ]))]
    simp only [List.length_cons, Prod.mk.injEq]
    refine ⟨?_, ?_⟩ <;>
      rw [shiftLeft_mod_shiftLeft, show 8 + 8 * rest.length = 8 * (rest.length + 1) from by ring]

/-- After reading `n ∈ [1, 8]` bytes from index 0, the sign-bit mask is
    `2^(8n-1)` and the sign-extension mask is `2^64 - 2^(8n)`. -/
theorem readIntLoopBig_masks (bs : List Nat) (n : Nat) (r : Nat)
    (hbs : bs.length = n) (h1 : 1 ≤ n) (h8 : n ≤ 8) :
    (readIntLoopBig bs 0 r 0x80 (SZ - 0x100)).2 = (2 ^ (8 * n - 1), SZ - 2 ^ (8 * n)) := by
  cases bs with
  | nil => simp at hbs; omega
  | cons b rest =>
    unfold readIntLoopBig
    rw [if_pos rfl]
    rw [readIntLoopBig_masks_aux rest 1 _ _ _ (by omega) (by norm_num [SZ]) (by norm_num [SZ])]
    have hrl : rest.length = n - 1 := by simp at hbs; omega
    rw [hrl]
    have hn : n - 1 ≤ 7 := by omega
    interval_cases n <;> simp_all <;> decide

/-- Little-endian version of `readIntLoopBig_masks`. -/
theorem readIntLoopLittle_masks (bs : List Nat) (n : Nat) (r : Nat)
    (hbs : bs.length = n) (h1 : 1 ≤ n) (h8 : n ≤ 8) :
    (readIntLoopLittle bs 0 r 0x80 (SZ - 0x100)).2 = (2 ^ (8 * n - 1), SZ - 2 ^ (8 * n)) := by
  cases bs with
  | nil => simp at hbs; omega
  | cons b rest =>
    unfold readIntLoopLittle
    rw [if_pos rfl]
    rw [readIntLoopLittle_masks_aux rest 1 _ _ _ (by omega) (by norm_num [SZ]) (by norm_num [SZ])]
    have hrl : rest.length = n - 1 := by simp at hbs; omega
    rw [hrl]
    have hn : n - 1 ≤ 7 := by omega
    interval_cases n <;> simp_all <;> decide

/-- The unsigned big-endian fold of byte values stays below `2^(8·len)`. -/
theorem readUIntLoopBig_lt (bs : List Nat) :
    ∀ (r k : Nat), (∀ b ∈ bs, b < 256) → r < 2 ^ k → k + 8 * bs.length ≤ 64 →
      readUIntLoopBig bs r < 2 ^ (k + 8 * bs.length) := by
  induction bs with
  | nil => intro r k hb hr hk; simpa using hr
  | cons b rest ih =>
    intro r k hb hr hk
    unfold readUIntLoopBig
    have hblt : b < 256 := hb b (by simp)
    have hor : r <<< 8 ||| b = b + r <<< 8 := by
      rw [Nat.lor_comm]
      exact lor_shiftLeft_eq_add b r 8 hblt
    have hval : b + r <<< 8 < 2 ^ (k + 8) := by
      rw [Nat.shiftLeft_eq, pow_add]
      have h0 : 1 ≤ 2 ^ k := Nat.one_le_two_pow
      have hrm : r * 2 ^ 8 ≤ (2 ^ k - 1) * 2 ^ 8 := Nat.mul_le_mul_right _ (by omega)
      omega
    have hmod : (r <<< 8 ||| b) % SZ = b + r <<< 8 := by
      rw [hor]
      have hlt : b + r <<< 8 < SZ := by
        unfold SZ
        exact lt_of_lt_of_le hval (Nat.pow_le_pow_right (by norm_num)
          (by simp only [List.length_cons] at hk; omega))
      exact Nat.mod_eq_of_lt hlt
    rw [hmod]
    simp only [List.length_cons]
    rw [show k + 8 * (rest.length + 1) = (k + 8) + 8 * rest.length from by ring]
    exact ih (b + r <<< 8) (k + 8) (fun x hx => hb x (by simp [hx])) hval
      (by simp only [List.length_cons] at hk; omega)

/-- The unsigned little-endian fold of byte values stays below
    `2^(8·(i + len))` when started at byte index `i` with an accumulator
    below `2^(8·i)`. -/
theorem readUIntLoopLittle_lt (bs : List Nat) :
    ∀ (i r : Nat), (∀ b ∈ bs, b < 256) → r < 2 ^ (8 * i) → 8 * (i + bs.length) ≤ 64 →
      readUIntLoopLittle bs i r < 2 ^ (8 * (i + bs.length)) := by
  induction bs with
  | nil => intro i r hb hr hk; simpa using hr
  | cons b rest ih =>
    intro i r hb hr hk
    unfold readUIntLoopLittle
    have hblt : b < 256 := hb b (by simp)
    have hk1 : 8 * (i + 1 + rest.length) ≤ 64 := by
      simp only [List.length_cons] at hk; omega
    have hsh : b <<< (i * 8) < 2 ^ (8 * (i + 1)) := by
      rw [Nat.shiftLeft_eq, show 8 * (i + 1) = 8 + i * 8 from by ring, pow_add]
      exact (Nat.mul_lt_mul_right (Nat.two_pow_pos (i * 8))).mpr (by omega)
    have hmodsh : (b <<< (i * 8)) % SZ = b <<< (i * 8) := by
      apply Nat.mod_eq_of_lt
      unfold SZ
      exact lt_of_lt_of_le hsh (Nat.pow_le_pow_right (by norm_num) (by omega))
    have hor : r ||| b <<< (i * 8) = r + b <<< (i * 8) := by
      apply lor_shiftLeft_eq_add r b (i * 8)
      rw [show i * 8 = 8 * i from by ring]
      exact hr
    have hval : r + b <<< (i * 8) < 2 ^ (8 * (i + 1)) := by
      rw [Nat.shiftLeft_eq] at hsh ⊢
      have h2 : (2:Nat) ^ (8 * (i + 1)) = 2 ^ (8 * i) * 256 := by
        rw [show 8 * (i + 1) = 8 * i + 8 from by ring, pow_add]; norm_num
      rw [h2] at hsh ⊢
      have hb2 : b * 2 ^ (i * 8) ≤ 255 * 2 ^ (8 * i) := by
        rw [show i * 8 = 8 * i from by ring]
        exact Nat.mul_le_mul_right _ (by omega)
      have h0 : 0 < 2 ^ (8 * i) := Nat.two_pow_pos _
      omega
    have hmodval : (r + b <<< (i * 8)) % SZ = r + b <<< (i * 8) := by
      apply Nat.mod_eq_of_lt
      unfold SZ
      exact lt_of_lt_of_le hval (Nat.pow_le_pow_right (by norm_num) (by omega))
    rw [hmodsh, hor, hmodval]
    simp only [List.length_cons]
    rw [show i + (rest.length + 1) = (i + 1) + rest.length from by ring]
    exact ih (i + 1) _ (fun x hx => hb x (by simp [hx])) hval hk1

theorem and_sign_bit (u n : Nat) (h1 : 1 ≤ n) (hu : u < 2 ^ (8 * n)) :
    (u &&& 2 ^ (8 * n - 1) ≠ 0) ↔ 2 ^ (8 * n - 1) ≤ u := by
  rw [Nat.and_two_pow, Nat.testBit_to_div_mod]
  have hp : 0 < 2 ^ (8 * n - 1) := Nat.two_pow_pos _
  have hsplit : u < 2 ^ (8 * n - 1) * 2 := by
    rw [← pow_succ, show 8 * n - 1 + 1 = 8 * n from by omega]
    exact hu
  rcases lt_or_ge u (2 ^ (8 * n - 1)) with hlt | hge
  · rw [Nat.div_eq_of_lt hlt]
    simp
    omega
  · have hdiv : u / 2 ^ (8 * n - 1) = 1 := by
      have ha : 1 ≤ u / 2 ^ (8 * n - 1) := (Nat.one_le_div_iff hp).2 hge
      have hb2 : u / 2 ^ (8 * n - 1) < 2 := Nat.div_lt_of_lt_mul (by omega)
      omega
    rw [hdiv]
    simp
    omega

theorem toIntmax_of_lt (x : Nat) (h : x < SZ) :
    toIntmax x = if x < 2 ^ 63 then (x : Int) else (x : Int) - (SZ : Int) := by
  unfold toIntmax ssizeOfNat
  rw [Nat.mod_eq_of_lt h]

/-- The two's-complement reinterpretation of an `8n`-bit unsigned value, as
    the claim words it: the unsigned fold with every bit above bit `8n - 1`
    set equal to bit `8n - 1`, read back as a signed integer. -/
def twosComplement (n u : Nat) : Int :=
  if u < 2 ^ (8 * n - 1) then (u : Int) else (u : Int) - 2 ^ (8 * n)

/-- The final sign-extension step of `accessorPrivateReadIntAtPointer`
    computes exactly the two's-complement reinterpretation. -/
theorem signFixup_eq_twosComplement (u n : Nat) (h1 : 1 ≤ n) (h8 : n ≤ 8)
    (hu : u < 2 ^ (8 * n)) :
    toIntmax (if u &&& 2 ^ (8 * n - 1) ≠ 0 then u ||| (SZ - 2 ^ (8 * n)) else u) =
      twosComplement n u := by
  have hple : (2:Nat) ^ (8 * n) ≤ SZ := by
    unfold SZ; exact Nat.pow_le_pow_right (by norm_num) (by omega)
  have hp2 : (2:Nat) ^ (8 * n - 1) * 2 = 2 ^ (8 * n) := by
    rw [← pow_succ, show 8 * n - 1 + 1 = 8 * n from by omega]
  have h64 : SZ = 2 ^ 63 * 2 := by unfold SZ; rw [← pow_succ]
  by_cases hsign : 2 ^ (8 * n - 1) ≤ u
  · rw [if_pos ((and_sign_bit u n h1 hu).2 hsign)]
    have hdecomp : SZ - 2 ^ (8 * n) = (2 ^ (64 - 8 * n) - 1) * 2 ^ (8 * n) := by
      rw [Nat.sub_mul, one_mul, ← pow_add, show 64 - 8 * n + 8 * n = 64 from by omega]
      rfl
    rw [hdecomp, lor_mul_pow_eq_add u _ _ hu, ← hdecomp]
    rw [toIntmax_of_lt _ (by omega)]
    rw [if_neg (by omega)]
    unfold twosComplement
    rw [if_neg (by omega)]
    have hcast : ((u + (SZ - 2 ^ (8 * n)) : Nat) : Int) = (u : Int) + (SZ : Int) - 2 ^ (8 * n) := by
      push_cast [Nat.cast_sub hple]
      ring
    rw [hcast]
    ring
  · rw [if_neg (by rw [and_sign_bit u n h1 hu]; omega)]
    rw [toIntmax_of_lt _ (by omega)]
    rw [if_pos (by omega)]
    unfold twosComplement
    rw [if_pos (by omega)]

/-- C4 at the decoder level: for `1 ≤ n ≤ 8` and any endianness,
    `accessorPrivateReadIntAtPointer` returns the two's-complement
    reinterpretation of the unsigned fold of the same `n` bytes. -/
theorem readIntAtPointer_eq_twosComplement (hostIsBig : Bool) (bytes : List Nat)
    (e : Endianness) (n : Nat) (h1 : 1 ≤ n) (h8 : n ≤ 8) (hlen : n ≤ bytes.length)
    (hb : ∀ b ∈ bytes, b < 256) :
    accessorPrivateReadIntAtPointer hostIsBig bytes e n =
      twosComplement n (accessorPrivateReadUIntAtPointer hostIsBig bytes e n) := by
  have hbs : (bytes.take n).length = n := by rw [List.length_take]; omega
  have hbb : ∀ b ∈ bytes.take n, b < 256 := fun b hbm => hb b (List.take_subset _ _ hbm)
  unfold accessorPrivateReadIntAtPointer accessorPrivateReadUIntAtPointer
  by_cases hbig : isBigEndianness hostIsBig e
  · rw [if_pos hbig, if_pos hbig]
    have hres := readIntLoopBig_result (bytes.take n) 0 0 0x80 (SZ - 0x100)
    have hmask := readIntLoopBig_masks (bytes.take n) n 0 hbs h1 h8
    have hu : readUIntLoopBig (bytes.take n) 0 < 2 ^ (8 * n) := by
      have := readUIntLoopBig_lt (bytes.take n) 0 0 hbb (by norm_num) (by rw [hbs]; omega)
      rwa [hbs, Nat.zero_add] at this
    rcases hst : readIntLoopBig (bytes.take n) 0 0 0x80 (SZ - 0x100) with ⟨u1, sb, se⟩
    rw [hst] at hres hmask
    simp only [] at hres hmask
    injection hmask with hsb hse
    rw [hres] at *
    rw [hsb, hse]
    exact signFixup_eq_twosComplement _ n h1 h8 hu
  · rw [if_neg hbig, if_neg hbig]
    have hres := readIntLoopLittle_result (bytes.take n) 0 0 0x80 (SZ - 0x100)
    have hmask := readIntLoopLittle_masks (bytes.take n) n 0 hbs h1 h8
    have hu : readUIntLoopLittle (bytes.take n) 0 0 < 2 ^ (8 * n) := by
      have := readUIntLoopLittle_lt (bytes.take n) 0 0 hbb (by norm_num) (by rw [hbs]; omega)
      rwa [hbs, Nat.zero_add] at this
    rcases hst : readIntLoopLittle (bytes.take n) 0 0 0x80 (SZ - 0x100) with ⟨u1, sb, se⟩
    rw [hst] at hres hmask
    simp only [] at hres hmask
    injection hmask with hsb hse
    rw [hres] at *
    rw [hsb, hse]
    exact signFixup_eq_twosComplement _ n h1 h8 hu

/-- The invariants of a live read accessor: cursor within the window, the
    window within the shared base data, byte values below 256, and sizes far
    below the `size_t` range. -/
def WF (s : AccessorState) : Prop :=
  s.cursor ≤ s.windowSize ∧ s.availableBytes = s.windowSize - s.cursor ∧
  s.baseWindowOffset + s.windowSize ≤ s.data.length ∧
  s.windowSize < 2 ^ 62 ∧ s.baseWindowOffset < 2 ^ 62 ∧
  (∀ b ∈ s.data, b < 256)

instance (s : AccessorState) : Decidable (WF s) := by
  unfold WF; infer_instance

/-- C4: for every width `1 ≤ n ≤ sizeof(intmax_t)` and every endianness, a
    successful `accessorReadEndianInt` of `n` bytes returns the
    two's-complement signed value of those bytes: the unsigned fold with all
    bits above bit `8n - 1` set equal to bit `8n - 1`, so the sign is
    correct for every such `n`. -/
theorem readEndianInt_returns_twos_complement (hostIsBig : Bool) (s : AccessorState)
    (e : Endianness) (n : Nat) (hWF : WF s) (h1 : 1 ≤ n) (h8 : n ≤ sizeofUintmax)
    (hav : n ≤ s.availableBytes) :
    (accessorReadEndianInt hostIsBig s e n).1 = .ok ∧
    (accessorReadEndianInt hostIsBig s e n).2.1 =
      twosComplement n
        (accessorPrivateReadUIntAtPointer hostIsBig
          (s.data.drop (s.baseWindowOffset + s.cursor)) e n) := by
  obtain ⟨hc, ha, hw, hws, hbwo, hb⟩ := hWF
  have h8n : n ≤ 8 := h8
  unfold accessorReadEndianInt
  rw [if_neg (by simp only [sizeofUintmax]; omega), if_neg (by omega)]
  refine ⟨rfl, ?_⟩
  dsimp only []
  apply readIntAtPointer_eq_twosComplement hostIsBig _ e n h1 h8n
  · rw [List.length_drop]
    omega
  · exact fun b hbm => hb b (List.drop_subset _ _ hbm)

/-- A two-byte big-endian probe for the C4 witness: bytes `0x87 0x65`. -/
def c4ProbeState : AccessorState :=
  { createEmpty .big with
    data := [0x87, 0x65]
    dataAllocated := true
    windowSize := 2
    availableBytes := 2
    dataMaxSize := 2 }

/-- Witness for C4: reading the bytes `87 65` as a big-endian 2-byte signed
    integer yields `0x8765 - 0x10000 = -30875`. -/
theorem readEndianInt_returns_twos_complement_witness :
    (accessorReadEndianInt true c4ProbeState .big 2).1 = .ok ∧
    (accessorReadEndianInt true c4ProbeState .big 2).2.1 = -30875 := by
  obtain ⟨hok, hval⟩ := readEndianInt_returns_twos_complement true c4ProbeState .big 2
    (by decide) (by decide) (by decide) (by decide)
  refine ⟨hok, ?_⟩
  rw [hval]
  decide

/-! ### Varint and zig-zag (C6, C7) -/

theorem and_127_eq_mod (x : Nat) : x &&& 127 = x % 128 := by
  have h : (127 : Nat) = 2 ^ 7 - 1 := by norm_num
  rw [h, Nat.and_pow_two_sub_one_eq_mod]

theorem varIntByteCount_pos (x : Nat) : 1 ≤ varIntByteCount x := by
  unfold varIntByteCount
  split <;> omega

theorem varIntByteCount_le (k : Nat) : ∀ x, 1 ≤ k → x < 2 ^ (7 * k) → varIntByteCount x ≤ k := by
  induction k with
  | zero => intro x h1 _; omega
  | succ k ih =>
    intro x h1 hx
    unfold varIntByteCount
    split
    · omega
    · have hk1 : 1 ≤ k := by
        by_contra hk0
        have hk : k = 0 := by omega
        subst hk
        have : x < 128 := by norm_num at hx; omega
        have : x >>> 7 = 0 := by
          rw [Nat.shiftRight_eq_div_pow]
          exact Nat.div_eq_of_lt (by norm_num; omega)
        simp_all
      have hx7 : x >>> 7 < 2 ^ (7 * k) := by
        rw [Nat.shiftRight_eq_div_pow]
        apply Nat.div_lt_of_lt_mul
        have he : 2 ^ (7 * (k + 1)) = 2 ^ 7 * 2 ^ (7 * k) := by
          rw [← pow_add]
          congr 1
          ring
        omega
      have := ih (x >>> 7) hk1 hx7
      omega

theorem varIntEncodeLoop_length (n : Nat) : ∀ x, (varIntEncodeLoop (n + 1) x).length = n + 1 := by
  induction n with
  | zero => intro x; rfl
  | succ n ih =>
    intro x
    show (varIntEncodeLoop (n + 2) x).length = n + 2
    unfold varIntEncodeLoop
    simp [ih]

/-- The continuation byte `(x & 0x7f) | 0x80` is `x % 128 + 128`. -/
theorem contByte_eq (x : Nat) : (x &&& 127) ||| 128 = x % 128 + 128 := by
  rw [and_127_eq_mod]
  have h : (128 : Nat) = 1 * 2 ^ 7 := by norm_num
  rw [h, lor_mul_pow_eq_add _ _ _ (by have := Nat.mod_lt x (show 0 < 128 by norm_num); norm_num; omega)]

theorem contByte_and_128 (x : Nat) : ((x &&& 127) ||| 128) &&& 128 ≠ 0 := by
  rw [contByte_eq]
  have h : (128 : Nat) = 2 ^ 7 := by norm_num
  rw [h, Nat.and_two_pow, Nat.testBit_to_div_mod]
  have hd : (x % 2 ^ 7 + 2 ^ 7) / 2 ^ 7 = 1 := by
    have hm : x % 2 ^ 7 < 2 ^ 7 := Nat.mod_lt _ (by norm_num)
    omega
  rw [hd]
  norm_num

theorem contByte_and_127 (x : Nat) : ((x &&& 127) ||| 128) &&& 127 = x &&& 127 := by
  rw [contByte_eq, and_127_eq_mod, and_127_eq_mod]
  omega

/-- Bitwise complement below `2^n` is subtraction from `2^n - 1`. -/
theorem xor_ones (n : Nat) : ∀ v, v < 2 ^ n → v ^^^ (2 ^ n - 1) = 2 ^ n - 1 - v := by
  induction n with
  | zero => intro v hv; interval_cases v; rfl
  | succ n ih =>
    intro v hv
    have hones : 2 ^ (n + 1) - 1 = Nat.bit true (2 ^ n - 1) := by
      rw [Nat.bit_val]
      have : 1 ≤ 2 ^ n := Nat.one_le_two_pow
      simp
      omega
    conv_lhs => rw [← Nat.bit_decomp v, hones, Nat.xor_bit]
    have h2 : (2 : Nat) ^ (n + 1) = 2 * 2 ^ n := by ring
    have hdiv : v.div2 < 2 ^ n := by
      rw [Nat.div2_val]
      omega
    rw [ih v.div2 hdiv]
    have hv2 : 2 * (v / 2) + (Bool.toNat v.bodd) = v := by
      have hb := Nat.bit_decomp v
      rw [Nat.bit_val, Nat.div2_val] at hb
      omega
    have h1 : 1 ≤ 2 ^ n := Nat.one_le_two_pow
    rw [Nat.div2_val] at *
    cases hb : v.bodd <;> rw [hb] at hv2 <;> simp [Nat.bit_val] at hv2 ⊢ <;> omega

theorem mul_pow_mod (c s m : Nat) (h : s ≤ m) :
    c * 2 ^ s % 2 ^ m = c % 2 ^ (m - s) * 2 ^ s := by
  have he : (2 : Nat) ^ m = 2 ^ (m - s) * 2 ^ s := by
    rw [← pow_add]
    congr 1
    omega
  rw [he, Nat.mul_mod_mul_right]

/-- Folding a 7-bit group into the accumulator at shift `s`: the `|` of the
    wrapped shifted group equals the wrapped sum. -/
theorem lor_mod_add (a c s : Nat) (ha : a < 2 ^ s) (hs : s ≤ 64) :
    (a ||| c * 2 ^ s % SZ) % SZ = (a + c * 2 ^ s) % SZ := by
  unfold SZ
  rw [mul_pow_mod c s 64 hs]
  have hc : c % 2 ^ (64 - s) ≤ 2 ^ (64 - s) - 1 := by
    have := Nat.mod_lt c (show 0 < 2 ^ (64 - s) from Nat.pos_pow_of_pos _ (by norm_num))
    omega
  have hsplit : (2 : Nat) ^ 64 = 2 ^ (64 - s) * 2 ^ s := by
    rw [← pow_add]
    congr 1
    omega
  have hlt : a + c % 2 ^ (64 - s) * 2 ^ s < 2 ^ 64 := by
    have hq : c % 2 ^ (64 - s) + 1 ≤ 2 ^ (64 - s) := by omega
    have h2 : (c % 2 ^ (64 - s) + 1) * 2 ^ s ≤ 2 ^ (64 - s) * 2 ^ s :=
      Nat.mul_le_mul_right _ hq
    rw [Nat.add_mul, one_mul] at h2
    rw [hsplit]
    omega
  rw [lor_mul_pow_eq_add _ _ _ ha, Nat.mod_eq_of_lt hlt]
  have ha64 : a < 2 ^ 64 := lt_of_lt_of_le ha (Nat.pow_le_pow_right (by norm_num) hs)
  conv_rhs => rw [Nat.add_mod, Nat.mod_eq_of_lt ha64, mul_pow_mod c s 64 hs,
    Nat.mod_eq_of_lt hlt]

/-- If ten consecutive continuation bytes are seen, the varint read loop
    fails with InvalidReadData (shift count reaches 70 ≥ 64). -/
theorem decodeLoop_allcont : ∀ (bs rest : List Nat) (k r nb : Nat),
    bs.length + k = 10 → bs ≠ [] → (∀ b ∈ bs, b &&& 0x80 ≠ 0) →
    accessorReadVarIntLoop (bs ++ rest) (7 * k) r nb = .error .invalidReadData := by
  intro bs
  induction bs with
  | nil => intro rest k r nb _ hne _; exact absurd rfl hne
  | cons b bs ih =>
    intro rest k r nb hlen _ hcont
    rw [List.cons_append]
    unfold accessorReadVarIntLoop
    dsimp only []
    rw [if_pos (hcont b (by simp))]
    by_cases hbs : bs = []
    · subst hbs
      have hk : k = 9 := by simp at hlen; omega
      subst hk
      rw [if_neg (by norm_num [sizeofUintmax])]
    · have hb1 : 1 ≤ bs.length := by
        cases bs with
        | nil => exact absurd rfl hbs
        | cons c cs => simp
      have hk : k ≤ 8 := by simp at hlen; omega
      rw [if_pos (by simp [sizeofUintmax]; omega),
        show 7 * k + 7 = 7 * (k + 1) by ring]
      exact ih rest (k + 1) _ _ (by simp at hlen ⊢; omega) hbs
        (fun c hc => hcont c (by simp [hc]))

/-- The varint read loop stops at the first byte with a clear continuation
    bit and returns the 7-bit groups assembled least-significant first. -/
theorem decodeLoop_clear : ∀ (pre : List Nat) (b : Nat) (rest : List Nat) (m r nb : Nat),
    (∀ c ∈ pre, c &&& 0x80 ≠ 0) → b &&& 0x80 = 0 →
    pre.length + m ≤ 9 → r < 2 ^ (7 * m) →
    accessorReadVarIntLoop (pre ++ b :: rest) (7 * m) r nb =
      .ok ((r + varIntSpecValue (pre ++ [b]) * 2 ^ (7 * m)) % SZ, nb + pre.length + 1) := by
  intro pre
  induction pre with
  | nil =>
    intro b rest m r nb _ hb hlen hr
    rw [List.nil_append]
    unfold accessorReadVarIntLoop
    dsimp only []
    rw [if_neg (by simp [hb])]
    have hv : varIntSpecValue ([] ++ [b]) = b % 128 := by
      simp [varIntSpecValue]
    rw [hv, and_127_eq_mod, Nat.shiftLeft_eq,
      lor_mod_add r (b % 128) (7 * m) hr (by omega)]
    simp
  | cons c pre ih =>
    intro b rest m r nb hcont hb hlen hr
    rw [List.cons_append]
    unfold accessorReadVarIntLoop
    dsimp only []
    rw [if_pos (hcont c (by simp))]
    have hm : m ≤ 8 := by simp at hlen; omega
    rw [if_pos (by simp [sizeofUintmax]; omega)]
    have hc127 : c % 128 ≤ 127 := by
      have := Nat.mod_lt c (show 0 < 128 by norm_num)
      omega
    have hmono : (2 : Nat) ^ (7 * m) ≤ 2 ^ 56 :=
      Nat.pow_le_pow_right (by norm_num) (by omega)
    have hsmall : c % 128 * 2 ^ (7 * m) < 2 ^ 63 := by
      have h2 : c % 128 * 2 ^ (7 * m) ≤ 127 * 2 ^ 56 :=
        Nat.mul_le_mul hc127 hmono
      norm_num at h2 ⊢
      omega
    have hr63 : r < 2 ^ 63 := lt_of_lt_of_le hr
      (le_trans hmono (by norm_num))
    have hres : (r ||| (c &&& 127) <<< (7 * m) % SZ) % SZ
        = r + c % 128 * 2 ^ (7 * m) := by
      rw [and_127_eq_mod, Nat.shiftLeft_eq,
        Nat.mod_eq_of_lt (show c % 128 * 2 ^ (7 * m) < SZ by unfold SZ; omega),
        lor_mul_pow_eq_add _ _ _ hr,
        Nat.mod_eq_of_lt (show r + c % 128 * 2 ^ (7 * m) < SZ by unfold SZ; omega)]
    rw [hres, show 7 * m + 7 = 7 * (m + 1) by ring]
    have hr' : r + c % 128 * 2 ^ (7 * m) < 2 ^ (7 * (m + 1)) := by
      have h3 : (2 : Nat) ^ (7 * (m + 1)) = 128 * 2 ^ (7 * m) := by
        rw [show 7 * (m + 1) = 7 + 7 * m by ring, pow_add]
        norm_num
      have h4 : c % 128 * 2 ^ (7 * m) ≤ 127 * 2 ^ (7 * m) :=
        Nat.mul_le_mul_right _ hc127
      omega
    rw [ih b rest (m + 1) _ (nb + 1) (fun u hu => hcont u (by simp [hu])) hb
      (by simp at hlen ⊢; omega) hr']
    have harith : r + c % 128 * 2 ^ (7 * m) +
        varIntSpecValue (pre ++ [b]) * 2 ^ (7 * (m + 1))
        = r + varIntSpecValue (c :: pre ++ [b]) * 2 ^ (7 * m) := by
      rw [List.cons_append]
      show _ = r + varIntSpecValue (c :: (pre ++ [b])) * 2 ^ (7 * m)
      rw [show varIntSpecValue (c :: (pre ++ [b]))
          = c % 128 + 128 * varIntSpecValue (pre ++ [b]) from rfl,
        show 7 * (m + 1) = 7 * m + 7 by ring, pow_add]
      ring_nf
    have hcnt : nb + 1 + pre.length + 1 = nb + (c :: pre).length + 1 := by
      simp only [List.length_cons]
      omega
    rw [harith, hcnt]

/-- Decoding the bytes emitted by the varint write loop yields back the
    written value, with correct byte count, at any starting shift. -/
theorem decodeLoop_encode : ∀ (x : Nat), ∀ (r m nb : Nat) (rest : List Nat),
    x < 2 ^ (64 - 7 * m) → r < 2 ^ (7 * m) → 7 * m ≤ 63 →
    accessorReadVarIntLoop (varIntEncodeLoop (varIntByteCount x) x ++ rest) (7 * m) r nb =
      .ok (r + x * 2 ^ (7 * m), nb + varIntByteCount x) := by
  intro x
  induction x using Nat.strong_induction_on with
  | _ x ih =>
    intro r m nb rest hx hr hm
    by_cases h7 : x >>> 7 = 0
    · have hbc : varIntByteCount x = 1 := by
        unfold varIntByteCount
        rw [if_pos h7]
      have hx128 : x < 128 := by
        rw [Nat.shiftRight_eq_div_pow] at h7
        norm_num at h7
        omega
      rw [hbc]
      show accessorReadVarIntLoop ((x &&& 0x7f) :: ([] ++ rest)) (7 * m) r nb = _
      unfold accessorReadVarIntLoop
      dsimp only []
      have h127z : (127 &&& 128 : Nat) = 0 := by decide
      have hclear : x &&& 127 &&& 128 = 0 := by
        rw [Nat.and_assoc, h127z, Nat.and_zero]
      rw [if_neg (by simp [hclear])]
      have hself : x &&& 127 &&& 127 = x := by
        rw [Nat.and_assoc, show (127 &&& 127 : Nat) = 127 from by decide,
          and_127_eq_mod, Nat.mod_eq_of_lt hx128]
      have hsplit : (2 : Nat) ^ (64 - 7 * m) * 2 ^ (7 * m) = 2 ^ 64 := by
        rw [← pow_add]
        congr 1
        omega
      have hlt : r + x * 2 ^ (7 * m) < 2 ^ 64 := by
        have h2 : (x + 1) * 2 ^ (7 * m) ≤ 2 ^ (64 - 7 * m) * 2 ^ (7 * m) :=
          Nat.mul_le_mul_right _ (by omega)
        rw [Nat.add_mul, one_mul, hsplit] at h2
        omega
      rw [hself, Nat.shiftLeft_eq,
        Nat.mod_eq_of_lt (show x * 2 ^ (7 * m) < SZ by unfold SZ; omega),
        lor_mul_pow_eq_add _ _ _ hr,
        Nat.mod_eq_of_lt (show r + x * 2 ^ (7 * m) < SZ by unfold SZ; exact hlt)]
    · have hx128 : 128 ≤ x := by
        by_contra h
        exact h7 (by
          rw [Nat.shiftRight_eq_div_pow]
          exact Nat.div_eq_of_lt (by norm_num; omega))
      have hm8 : 7 * m ≤ 56 := by
        by_contra hmm
        have h64 : 64 - 7 * m ≤ 7 := by omega
        have hle : (2 : Nat) ^ (64 - 7 * m) ≤ 2 ^ 7 :=
          Nat.pow_le_pow_right (by norm_num) h64
        norm_num at hle
        omega
      obtain ⟨c, hc⟩ : ∃ c, varIntByteCount (x >>> 7) = c + 1 :=
        ⟨varIntByteCount (x >>> 7) - 1, by
          have := varIntByteCount_pos (x >>> 7)
          omega⟩
      have hbc : varIntByteCount x = c + 2 := by
        unfold varIntByteCount
        rw [if_neg h7, hc]
        omega
      rw [hbc]
      show accessorReadVarIntLoop
        ((((x &&& 0x7f) ||| 0x80) :: varIntEncodeLoop (c + 1) (x >>> 7)) ++ rest)
        (7 * m) r nb = _
      rw [List.cons_append]
      unfold accessorReadVarIntLoop
      dsimp only []
      rw [if_pos (contByte_and_128 x)]
      rw [if_pos (by simp [sizeofUintmax]; omega)]
      have hc127 : x % 128 ≤ 127 := by
        have := Nat.mod_lt x (show 0 < 128 by norm_num)
        omega
      have hmono : (2 : Nat) ^ (7 * m) ≤ 2 ^ 56 :=
        Nat.pow_le_pow_right (by norm_num) hm8
      have hsmall : x % 128 * 2 ^ (7 * m) < 2 ^ 63 := by
        have h2 : x % 128 * 2 ^ (7 * m) ≤ 127 * 2 ^ 56 :=
          Nat.mul_le_mul hc127 hmono
        norm_num at h2 ⊢
        omega
      have hr63 : r < 2 ^ 63 := lt_of_lt_of_le hr (le_trans hmono (by norm_num))
      have hres : (r ||| ((((x &&& 127) ||| 128) &&& 127) <<< (7 * m)) % SZ) % SZ
          = r + x % 128 * 2 ^ (7 * m) := by
        rw [contByte_and_127, and_127_eq_mod, Nat.shiftLeft_eq,
          Nat.mod_eq_of_lt (show x % 128 * 2 ^ (7 * m) < SZ by unfold SZ; omega),
          lor_mul_pow_eq_add _ _ _ hr,
          Nat.mod_eq_of_lt (show r + x % 128 * 2 ^ (7 * m) < SZ by unfold SZ; omega)]
      rw [hres, show 7 * m + 7 = 7 * (m + 1) by ring]
      have hdec : x >>> 7 < x := by
        rw [Nat.shiftRight_eq_div_pow]
        exact Nat.div_lt_self (by omega) (by norm_num)
      have hx7 : x >>> 7 < 2 ^ (64 - 7 * (m + 1)) := by
        rw [Nat.shiftRight_eq_div_pow]
        apply Nat.div_lt_of_lt_mul
        have hsp : (2 : Nat) ^ (64 - 7 * m) = 2 ^ 7 * 2 ^ (64 - 7 * (m + 1)) := by
          rw [← pow_add]
          congr 1
          omega
        omega
      have hr' : r + x % 128 * 2 ^ (7 * m) < 2 ^ (7 * (m + 1)) := by
        have h3 : (2 : Nat) ^ (7 * (m + 1)) = 128 * 2 ^ (7 * m) := by
          rw [show 7 * (m + 1) = 7 + 7 * m by ring, pow_add]
          norm_num
        have h4 : x % 128 * 2 ^ (7 * m) ≤ 127 * 2 ^ (7 * m) :=
          Nat.mul_le_mul_right _ hc127
        omega
      rw [← hc, ih (x >>> 7) hdec _ (m + 1) (nb + 1) rest hx7 hr' (by omega), hc]
      have hdm : x % 128 + 128 * (x >>> 7) = x := by
        rw [Nat.shiftRight_eq_div_pow]
        norm_num
        omega
      have hval : r + x % 128 * 2 ^ (7 * m) + x >>> 7 * 2 ^ (7 * (m + 1))
          = r + x * 2 ^ (7 * m) := by
        have h3 : (2 : Nat) ^ (7 * (m + 1)) = 2 ^ (7 * m) * 128 := by
          rw [show 7 * (m + 1) = 7 * m + 7 by ring, pow_add]
          norm_num
        rw [h3]
        conv_rhs => rw [← hdm]
        ring
      have hcnt : nb + 1 + (c + 1) = nb + (c + 2) := by omega
      rw [hval, hcnt]

/-- A two-byte varint probe: `0x85 0x03` encodes 389. -/
def varintProbe : AccessorState :=
  { createEmpty .big with
    data := [0x85, 0x03]
    dataMaxSize := 2
    windowSize := 2
    availableBytes := 2 }

/-- A probe whose window holds ten continuation bytes `0x80`. -/
def varintBadProbe : AccessorState :=
  { createEmpty .big with
    data := List.replicate 10 0x80
    dataMaxSize := 10
    windowSize := 10
    availableBytes := 10 }

/-- C6: `accessorReadVarInt` consumes successive bytes carrying 7 payload
    bits each, least-significant group first, stopping at the first byte
    whose 0x80 continuation bit is clear; if the continuation bit is still
    set after 10 bytes it returns InvalidReadData and consumes nothing; and
    `accessorWriteVarInt` emits between 1 and 10 bytes for any 64-bit
    value. -/
theorem varint_wire_format (s : AccessorState) (x : Nat) (pre : List Nat) (b : Nat)
    (rest bs rest' : List Nat) (hx : x < SZ) :
    ((∀ c ∈ pre, c &&& 0x80 ≠ 0) → b &&& 0x80 = 0 → pre.length ≤ 9 →
      (s.data.drop (s.baseWindowOffset + s.cursor)).take s.availableBytes = pre ++ b :: rest →
      accessorReadVarInt s =
        (.ok, varIntSpecValue (pre ++ [b]) % SZ,
          { s with availableBytes := szSub s.availableBytes (pre.length + 1),
                   cursor := szAdd s.cursor (pre.length + 1) })) ∧
    (bs.length = 10 → (∀ c ∈ bs, c &&& 0x80 ≠ 0) →
      (s.data.drop (s.baseWindowOffset + s.cursor)).take s.availableBytes = bs ++ rest' →
      accessorReadVarInt s = (.invalidReadData, 0, s)) ∧
    (1 ≤ varIntByteCount x ∧ varIntByteCount x ≤ 10 ∧
      (varIntEncodeLoop (varIntByteCount x) x).length = varIntByteCount x) := by
  refine ⟨?_, ?_, ?_⟩
  · intro hcont hb hlen hregion
    unfold accessorReadVarInt
    rw [hregion]
    dsimp only []
    have h := decodeLoop_clear pre b rest 0 0 0 hcont hb (by omega) (by norm_num)
    norm_num at h
    rw [h]
  · intro hlen hcont hregion
    unfold accessorReadVarInt
    rw [hregion]
    dsimp only []
    have h := decodeLoop_allcont bs rest' 0 0 0 (by omega)
      (by intro he; subst he; simp at hlen) hcont
    norm_num at h
    rw [h]
  · refine ⟨varIntByteCount_pos x, ?_, ?_⟩
    · refine varIntByteCount_le 10 x (by norm_num) ?_
      have := hx
      norm_num [SZ] at this ⊢
      omega
    · obtain ⟨k, hk⟩ : ∃ k, varIntByteCount x = k + 1 :=
        ⟨varIntByteCount x - 1, by have := varIntByteCount_pos x; omega⟩
      rw [hk]
      exact varIntEncodeLoop_length k x

theorem varint_wire_format_witness :
    accessorReadVarInt varintProbe =
      (.ok, 389, { varintProbe with availableBytes := 0, cursor := 2 }) ∧
    accessorReadVarInt varintBadProbe = (.invalidReadData, 0, varintBadProbe) ∧
    (1 ≤ varIntByteCount 389 ∧ varIntByteCount 389 ≤ 10 ∧
      (varIntEncodeLoop (varIntByteCount 389) 389).length = varIntByteCount 389) := by
  refine ⟨?_, ?_, ?_⟩
  · have h := (varint_wire_format varintProbe 389 [0x85] 0x03 [] [] []
      (by norm_num [SZ])).1 (by decide) (by decide) (by decide) (by decide)
    rw [h]
    decide
  · have h := (varint_wire_format varintBadProbe 389 [] 0 [] (List.replicate 10 0x80) []
      (by norm_num [SZ])).2.1 (by decide) (by decide) (by decide)
    rw [h]
  · exact (varint_wire_format varintProbe 389 [] 0 [] [] [] (by norm_num [SZ])).2.2

theorem szOfInt_natCast (n : Nat) (h : n < SZ) : szOfInt (n : Int) = n := by
  unfold SZ at h
  unfold szOfInt SZ
  omega

theorem storeBytes_drop_take (d : List Nat) (p : Nat) (bs : List Nat) (k : Nat)
    (hlen : bs.length ≤ k) (hp : p ≤ d.length) :
    ((storeBytes d p bs).drop p).take k
      = bs ++ (d.drop (p + bs.length)).take (k - bs.length) := by
  unfold storeBytes
  have h1 : (d.take p ++ (bs ++ d.drop (p + bs.length))).drop p
      = bs ++ d.drop (p + bs.length) := by
    have h2 := List.drop_left (d.take p) (bs ++ d.drop (p + bs.length))
    rwa [List.length_take, Nat.min_eq_left hp] at h2
  rw [List.append_assoc, h1, List.take_append_eq_append_take,
    List.take_all_of_le hlen]

/-- On a well-formed writable base accessor with room for a maximal varint,
    `accessorWriteVarInt` succeeds, a SEEK_SET back to the pre-write cursor
    succeeds, and `accessorReadVarInt` then returns the written value. -/
theorem varint_write_read_back (s : AccessorState) (u : Nat) (allocOk : Bool) (junk : Nat)
    (hWF : WriteWF s) (hroom : 10 ≤ s.availableBytes) (hu : u < SZ) :
    (accessorWriteVarInt s u allocOk junk).1 = .ok ∧
    (accessorSeek (accessorWriteVarInt s u allocOk junk).2 (s.cursor : Int) 0 allocOk junk).1 = .ok ∧
    ∃ s3, accessorReadVarInt
        (accessorSeek (accessorWriteVarInt s u allocOk junk).2 (s.cursor : Int) 0 allocOk junk).2 =
      (.ok, u, s3) := by
  obtain ⟨hwe, hbase, hwo, hbwo, hreal, hg0, hg62, hcw, hav, hwdm, hdl, hws62, hdm62⟩ := hWF
  have hn1 : 1 ≤ varIntByteCount u := varIntByteCount_pos u
  have hn10 : varIntByteCount u ≤ 10 := by
    refine varIntByteCount_le 10 u (by norm_num) ?_
    unfold SZ at hu
    norm_num
    omega
  have hcsz : s.cursor < SZ := by unfold SZ; omega
  have hwsz : s.windowSize < SZ := by unfold SZ; omega
  have hlenenc : (varIntEncodeLoop (varIntByteCount u) u).length = varIntByteCount u := by
    obtain ⟨k, hk⟩ : ∃ k, varIntByteCount u = k + 1 := ⟨varIntByteCount u - 1, by omega⟩
    rw [hk]
    exact varIntEncodeLoop_length k u
  have hwr : accessorWriteVarInt s u allocOk junk =
      (.ok, { s with
        data := storeBytes s.data (s.baseWindowOffset + s.cursor)
          (varIntEncodeLoop (varIntByteCount u) u),
        cursor := szAdd s.cursor (varIntByteCount u),
        availableBytes := szSub s.availableBytes (varIntByteCount u) }) := by
    unfold accessorWriteVarInt
    rw [if_neg (by simp [hwe])]
    dsimp only []
    rw [if_neg (by omega)]
  have hsnc : seekNewCursor { s with
        data := storeBytes s.data (s.baseWindowOffset + s.cursor)
          (varIntEncodeLoop (varIntByteCount u) u),
        cursor := szAdd s.cursor (varIntByteCount u),
        availableBytes := szSub s.availableBytes (varIntByteCount u) }
      (s.cursor : Int) 0 = s.cursor := by
    unfold seekNewCursor
    rw [if_pos rfl]
    exact szOfInt_natCast s.cursor hcsz
  have hseek2 : accessorSeek { s with
        data := storeBytes s.data (s.baseWindowOffset + s.cursor)
          (varIntEncodeLoop (varIntByteCount u) u),
        cursor := szAdd s.cursor (varIntByteCount u),
        availableBytes := szSub s.availableBytes (varIntByteCount u) }
      (s.cursor : Int) 0 allocOk junk
      = (.ok, { s with
        data := storeBytes s.data (s.baseWindowOffset + s.cursor)
          (varIntEncodeLoop (varIntByteCount u) u),
        cursor := s.cursor,
        availableBytes := szSub s.windowSize s.cursor }) := by
    rw [accessorSeek_in_range_eq _ _ _ _ _ (Or.inl rfl) (by rw [hsnc]; exact hcw), hsnc]
  have hsub : szSub s.windowSize s.cursor = s.windowSize - s.cursor :=
    szSub_eq_sub _ _ hcw hwsz
  have hregion : ((storeBytes s.data (s.baseWindowOffset + s.cursor)
        (varIntEncodeLoop (varIntByteCount u) u)).drop (s.baseWindowOffset + s.cursor)).take
        (szSub s.windowSize s.cursor)
      = varIntEncodeLoop (varIntByteCount u) u ++
        (s.data.drop (s.baseWindowOffset + s.cursor + varIntByteCount u)).take
          (s.windowSize - s.cursor - varIntByteCount u) := by
    rw [hsub, storeBytes_drop_take s.data (s.baseWindowOffset + s.cursor) _ _
      (by rw [hlenenc]; omega) (by omega), hlenenc]
  have hdecode := decodeLoop_encode u 0 0 0
    ((s.data.drop (s.baseWindowOffset + s.cursor + varIntByteCount u)).take
      (s.windowSize - s.cursor - varIntByteCount u))
    (by unfold SZ at hu; simpa using hu) (by norm_num) (by norm_num)
  norm_num at hdecode
  have hread : accessorReadVarInt { s with
        data := storeBytes s.data (s.baseWindowOffset + s.cursor)
          (varIntEncodeLoop (varIntByteCount u) u),
        cursor := s.cursor,
        availableBytes := szSub s.windowSize s.cursor }
      = (.ok, u, { s with
        data := storeBytes s.data (s.baseWindowOffset + s.cursor)
          (varIntEncodeLoop (varIntByteCount u) u),
        cursor := szAdd s.cursor (varIntByteCount u),
        availableBytes := szSub (szSub s.windowSize s.cursor) (varIntByteCount u) }) := by
    unfold accessorReadVarInt
    dsimp only []
    rw [hregion, hdecode]
  rw [hwr]
  dsimp only []
  rw [hseek2]
  dsimp only []
  rw [hread]
  exact ⟨rfl, rfl, _, rfl⟩

theorem zigzag_encode_nonneg (z : Int) (h0 : z ≥ 0) (h1 : z < 2 ^ 63) :
    (szOfInt z <<< 1) % SZ = 2 * z.toNat ∧ 2 * z.toNat < SZ := by
  unfold szOfInt SZ
  have hmod : z % ((2 ^ 64 : Nat) : Int) = z := by
    have : ((2 ^ 64 : Nat) : Int) = 2 ^ 64 := by norm_num
    rw [this]
    omega
  rw [hmod, Nat.shiftLeft_eq]
  refine ⟨?_, by omega⟩
  have h2 : z.toNat * 2 ^ 1 = 2 * z.toNat := by ring
  rw [h2]
  exact Nat.mod_eq_of_lt (by omega)

theorem zigzag_encode_neg (z : Int) (h0 : z < 0) (h1 : -(2 ^ 63) ≤ z) :
    szNot ((szOfInt z <<< 1) % SZ) = 2 * (-z).toNat - 1 ∧ 2 * (-z).toNat - 1 < SZ := by
  unfold szOfInt szNot SZ
  have hmod : z % ((2 ^ 64 : Nat) : Int) = z + 2 ^ 64 := by
    have : ((2 ^ 64 : Nat) : Int) = 2 ^ 64 := by norm_num
    rw [this]
    omega
  rw [hmod, Nat.shiftLeft_eq]
  have hA : (z + 2 ^ 64).toNat = 2 ^ 64 - (-z).toNat := by omega
  rw [hA]
  have ha1 : 1 ≤ (-z).toNat := by omega
  have ha2 : (-z).toNat ≤ 2 ^ 63 := by omega
  norm_num
  omega

theorem zigzag_even_decode (a : Nat) (h : a < 2 ^ 63) :
    toIntmax ((2 * a) >>> 1 ^^^ szNeg (2 * a &&& 1)) = (a : Int) := by
  have h1 : 2 * a &&& 1 = 0 := by
    rw [Nat.and_one_is_mod]
    omega
  have h2 : szNeg 0 = 0 := by norm_num [szNeg, SZ]
  have h3 : (2 * a) >>> 1 = a := by
    rw [Nat.shiftRight_eq_div_pow]
    omega
  rw [h1, h2, Nat.xor_zero, h3, toIntmax_of_lt a (by unfold SZ; omega), if_pos h]

theorem zigzag_odd_decode (a : Nat) (ha1 : 1 ≤ a) (ha2 : a ≤ 2 ^ 63) :
    toIntmax ((2 * a - 1) >>> 1 ^^^ szNeg ((2 * a - 1) &&& 1)) = -(a : Int) := by
  have h1 : (2 * a - 1) &&& 1 = 1 := by
    rw [Nat.and_one_is_mod]
    omega
  have h2 : szNeg 1 = 2 ^ 64 - 1 := by norm_num [szNeg, SZ]
  have h3 : (2 * a - 1) >>> 1 = a - 1 := by
    rw [Nat.shiftRight_eq_div_pow]
    omega
  have h4 : (a - 1) ^^^ (2 ^ 64 - 1) = 2 ^ 64 - 1 - (a - 1) :=
    xor_ones 64 (a - 1) (by omega)
  have h5 : 2 ^ 64 - 1 - (a - 1) = 2 ^ 64 - a := by omega
  rw [h1, h2, h3, h4, h5, toIntmax_of_lt _ (by unfold SZ; omega), if_neg (by omega),
    Nat.cast_sub (by omega : a ≤ 2 ^ 64)]
  have hSZ : ((SZ : Nat) : Int) = 2 ^ 64 := by norm_num [SZ]
  rw [hSZ]
  push_cast
  ring

/-- A 16-byte writable base accessor used to witness the varint round
    trips. -/
def rtProbe : AccessorState :=
  { createEmpty .big with
    writeEnabled := true
    mayBeReallocated := true
    dataAllocated := true
    granularity := 4
    data := List.replicate 16 0
    dataMaxSize := 16
    windowSize := 12
    availableBytes := 12 }

/-- C7: on a well-formed writable accessor with room, writing any
    `uintmax_t` value with `accessorWriteVarInt` and reading back at the
    same position with `accessorReadVarInt` yields the value again, and
    writing any `intmax_t` value with `accessorWriteZigZagInt` and reading
    back with `accessorReadZigZagInt` yields the value again. -/
theorem varint_zigzag_roundtrip (s : AccessorState) (x : Nat) (z : Int)
    (allocOk : Bool) (junk : Nat)
    (hWF : WriteWF s) (hroom : 10 ≤ s.availableBytes)
    (hx : x < SZ) (hz1 : -(2 ^ 63) ≤ z) (hz2 : z < 2 ^ 63) :
    ((accessorWriteVarInt s x allocOk junk).1 = .ok ∧
      (accessorSeek (accessorWriteVarInt s x allocOk junk).2 (s.cursor : Int) 0 allocOk junk).1
        = .ok ∧
      (accessorReadVarInt
        (accessorSeek (accessorWriteVarInt s x allocOk junk).2
          (s.cursor : Int) 0 allocOk junk).2).1 = .ok ∧
      (accessorReadVarInt
        (accessorSeek (accessorWriteVarInt s x allocOk junk).2
          (s.cursor : Int) 0 allocOk junk).2).2.1 = x) ∧
    ((accessorWriteZigZagInt s z allocOk junk).1 = .ok ∧
      (accessorSeek (accessorWriteZigZagInt s z allocOk junk).2 (s.cursor : Int) 0 allocOk junk).1
        = .ok ∧
      (accessorReadZigZagInt
        (accessorSeek (accessorWriteZigZagInt s z allocOk junk).2
          (s.cursor : Int) 0 allocOk junk).2).1 = .ok ∧
      (accessorReadZigZagInt
        (accessorSeek (accessorWriteZigZagInt s z allocOk junk).2
          (s.cursor : Int) 0 allocOk junk).2).2.1 = z) := by
  constructor
  · obtain ⟨h1, h2, s3, h3⟩ := varint_write_read_back s x allocOk junk hWF hroom hx
    exact ⟨h1, h2, by rw [h3], by rw [h3]⟩
  · unfold accessorWriteZigZagInt
    by_cases hz : z ≥ 0
    · rw [if_pos hz]
      obtain ⟨heq, hlt⟩ := zigzag_encode_nonneg z hz hz2
      rw [heq]
      obtain ⟨h1, h2, s3, h3⟩ := varint_write_read_back s (2 * z.toNat) allocOk junk hWF hroom hlt
      refine ⟨h1, h2, ?_, ?_⟩
      · unfold accessorReadZigZagInt
        rw [h3]
      · unfold accessorReadZigZagInt
        rw [h3]
        dsimp only []
        rw [zigzag_even_decode z.toNat (by omega)]
        exact Int.toNat_of_nonneg hz
    · rw [if_neg hz]
      obtain ⟨heq, hlt⟩ := zigzag_encode_neg z (by omega) hz1
      rw [heq]
      obtain ⟨h1, h2, s3, h3⟩ :=
        varint_write_read_back s (2 * (-z).toNat - 1) allocOk junk hWF hroom hlt
      refine ⟨h1, h2, ?_, ?_⟩
      · unfold accessorReadZigZagInt
        rw [h3]
      · unfold accessorReadZigZagInt
        rw [h3]
        dsimp only []
        rw [zigzag_odd_decode (-z).toNat (by omega) (by omega)]
        omega

theorem varint_zigzag_roundtrip_witness :
    (accessorReadVarInt
      (accessorSeek (accessorWriteVarInt rtProbe 777 true 0).2
        (rtProbe.cursor : Int) 0 true 0).2).2.1 = 777 ∧
    (accessorReadZigZagInt
      (accessorSeek (accessorWriteZigZagInt rtProbe (-5) true 0).2
        (rtProbe.cursor : Int) 0 true 0).2).2.1 = -5 :=
  ⟨(varint_zigzag_roundtrip rtProbe 777 (-5) true 0 (by decide) (by decide)
      (by norm_num [SZ]) (by norm_num) (by norm_num)).1.2.2.2,
   (varint_zigzag_roundtrip rtProbe 777 (-5) true 0 (by decide) (by decide)
      (by norm_num [SZ]) (by norm_num) (by norm_num)).2.2.2.2⟩

/-! ### Coverage summarising (C9) -/

/-- `accessorPrivateCoverageCompare` (accessor.c): increasing offset, then
    decreasing size, then increasing usage1, then increasing usage2. -/
def accessorPrivateCoverageCompare (c1 c2 : CoverageRecord) : Int :=
  if c1.offset < c2.offset then -1
  else if c1.offset > c2.offset then 1
  else if c1.size < c2.size then 1
  else if c1.size > c2.size then -1
  else if c1.usage1 < c2.usage1 then -1
  else if c1.usage1 > c2.usage1 then 1
  else if c1.usage2 < c2.usage2 then -1
  else if c1.usage2 > c2.usage2 then 1
  else 0

/-- The merge test of `accessorPrivateCoverageMerge` (accessor.c):
    usages equal, `offset1 <= offset2` and `offset1 + size1 >= offset2`
    (the sum is a `size_t` addition). -/
def coverageCanMerge (c1 c2 : CoverageRecord) : Bool :=
  decide (c1.usage1 = c2.usage1) && decide (c1.usage2 = c2.usage2) &&
  decide (c1.offset ≤ c2.offset) && decide (szAdd c1.offset c1.size ≥ c2.offset)

/-- The merged record of `accessorPrivateCoverageMerge` (left in `c1`):
    the size is extended iff record 2 ends beyond record 1. -/
def coverageMergeRec (c1 c2 : CoverageRecord) : CoverageRecord :=
  if szAdd c2.offset c2.size > szAdd c1.offset c1.size
  then { c1 with size := szSub (szAdd c2.offset c2.size) c1.offset }
  else c1

/-- The end-to-begin merge loop of `accessorSummarizeCoverage`
    (accessor.c): each index `c1` from high to low is merged once with its
    current right neighbour (which may itself be a merge result); after a
    non-merge the right record is never revisited. -/
def coverageMergePass : List CoverageRecord → List CoverageRecord
  | [] => []
  | r :: rest =>
    match coverageMergePass rest with
    | [] => [r]
    | r2 :: rest' =>
      if coverageCanMerge r r2 then coverageMergeRec r r2 :: rest'
      else r :: r2 :: rest'

/-- The qsort ordering predicate induced by the default comparator. -/
def coverageLe (c1 c2 : CoverageRecord) : Bool :=
  decide (accessorPrivateCoverageCompare c1 c2 ≤ 0)

/-- `accessorSummarizeCoverage` (accessor.c) with the default (NULL)
    compare and merge functions.  `qsort` is modelled by `mergeSort` under
    the comparator ordering: records comparing equal are equal in all four
    compared fields, so every comparator-sorted permutation of the array is
    this very list. -/
def accessorSummarizeCoverage (s : AccessorState) : AccessorState :=
  if s.coverageArray.length = 0 then s
  else
    let sorted := s.coverageArray.mergeSort coverageLe
    let merged := if sorted.length ≥ 2 then coverageMergePass sorted else sorted
    { s with coverageArray := merged }

theorem coverageMergePass_cons (r : CoverageRecord) (rest : List CoverageRecord) :
    coverageMergePass (r :: rest) =
      match coverageMergePass rest with
      | [] => [r]
      | r2 :: rest' =>
        if coverageCanMerge r r2 then coverageMergeRec r r2 :: rest'
        else r :: r2 :: rest' := rfl

theorem compare_le_iff (a b : CoverageRecord) :
    accessorPrivateCoverageCompare a b ≤ 0 ↔
      (a.offset < b.offset ∨ (a.offset = b.offset ∧ (b.size < a.size ∨
        (a.size = b.size ∧ (a.usage1 < b.usage1 ∨
          (a.usage1 = b.usage1 ∧ a.usage2 ≤ b.usage2)))))) := by
  unfold accessorPrivateCoverageCompare
  split_ifs <;> omega

theorem coverageLe_trans : ∀ a b c : CoverageRecord,
    coverageLe a b → coverageLe b c → coverageLe a c := by
  intro a b c hab hbc
  unfold coverageLe at *
  rw [decide_eq_true_eq, compare_le_iff] at *
  omega

theorem coverageLe_total : ∀ a b : CoverageRecord,
    coverageLe a b || coverageLe b a := by
  intro a b
  unfold coverageLe
  rcases le_or_lt (accessorPrivateCoverageCompare a b) 0 with h | h
  · simp [h]
  · have hn : ¬ accessorPrivateCoverageCompare a b ≤ 0 := not_le.mpr h
    rw [compare_le_iff] at hn
    have hba : accessorPrivateCoverageCompare b a ≤ 0 := by
      rw [compare_le_iff]
      omega
    simp [hba]

theorem coverageMergeRec_offset (c1 c2 : CoverageRecord) :
    (coverageMergeRec c1 c2).offset = c1.offset := by
  unfold coverageMergeRec
  split <;> rfl

theorem coverageMergePass_offsets :
    ∀ l : List CoverageRecord,
    List.Pairwise (fun a b => a.offset ≤ b.offset) l →
    List.Pairwise (fun a b => a.offset ≤ b.offset) (coverageMergePass l) ∧
    ∀ r ∈ coverageMergePass l, ∃ r0 ∈ l, r.offset = r0.offset := by
  intro l
  induction l with
  | nil => intro _; exact ⟨List.Pairwise.nil, by simp [coverageMergePass]⟩
  | cons r rest ih =>
    intro hl
    rw [List.pairwise_cons] at hl
    obtain ⟨hr, hrest⟩ := hl
    obtain ⟨hp, hmem⟩ := ih hrest
    rw [coverageMergePass_cons]
    cases hm : coverageMergePass rest with
    | nil =>
      refine ⟨by simp, ?_⟩
      intro x hx
      simp at hx
      exact ⟨r, by simp, by rw [hx]⟩
    | cons r2 rest' =>
      rw [hm] at hp hmem
      dsimp only []
      by_cases hc : coverageCanMerge r r2 = true
      · rw [if_pos hc]
        constructor
        · rw [List.pairwise_cons]
          refine ⟨?_, (List.pairwise_cons.mp hp).2⟩
          intro b hb
          obtain ⟨r0, hr0m, hr0e⟩ := hmem b (by simp [hb])
          rw [coverageMergeRec_offset, hr0e]
          exact hr r0 hr0m
        · intro x hx
          rcases List.mem_cons.mp hx with hx | hx
          · exact ⟨r, by simp, by rw [hx, coverageMergeRec_offset]⟩
          · obtain ⟨r0, hr0m, hr0e⟩ := hmem x (by simp [hx])
            exact ⟨r0, by simp [hr0m], hr0e⟩
      · rw [if_neg hc]
        constructor
        · rw [List.pairwise_cons]
          refine ⟨?_, hp⟩
          intro b hb
          obtain ⟨r0, hr0m, hr0e⟩ := hmem b hb
          rw [hr0e]
          exact hr r0 hr0m
        · intro x hx
          rcases List.mem_cons.mp hx with hx | hx
          · exact ⟨r, by simp, by rw [hx]⟩
          · obtain ⟨r0, hr0m, hr0e⟩ := hmem x hx
            exact ⟨r0, by simp [hr0m], hr0e⟩

theorem coverageMergePass_of_no_merge :
    ∀ l : List CoverageRecord,
    List.Chain' (fun a b => coverageCanMerge a b = false) l →
    coverageMergePass l = l := by
  intro l
  induction l with
  | nil => intro _; rfl
  | cons r rest ih =>
    intro h
    cases rest with
    | nil => rfl
    | cons r2 rest2 =>
      rw [coverageMergePass_cons, ih (List.chain'_cons.mp h).2]
      dsimp only []
      rw [if_neg (by simp [(List.chain'_cons.mp h).1])]

/-- Probe: [0,100) ∪ [1,3) ∪ [5,6), all usages equal. -/
def covProbe : AccessorState :=
  { createEmpty .big with
    coverageArray := [⟨0, 100, 0, 0⟩, ⟨1, 2, 0, 0⟩, ⟨5, 1, 0, 0⟩] }

/-- Probe: [0,5) and [0,3) ∪ [1,11) with differing usage1. -/
def covProbe2 : AccessorState :=
  { createEmpty .big with
    coverageArray := [⟨0, 5, 0, 0⟩, ⟨0, 3, 1, 0⟩, ⟨1, 10, 1, 0⟩] }

/-- Probe: two disjoint, non-mergeable, strictly sorted records. -/
def covProbe3 : AccessorState :=
  { createEmpty .big with
    coverageArray := [⟨0, 2, 0, 0⟩, ⟨3, 1, 0, 0⟩] }

/-- C9 counterexample: summarising `covProbe` merges only [1,3) into
    [0,100) — the merge loop moves both cursors after a non-merge, so
    [5,6) is never compared with [0,100) — and a second summarise merges
    it, so the function is not idempotent; summarising `covProbe2` leaves
    adjacent records on which the default comparator returns +1, so the
    output is not strictly sorted (not even sorted). -/
theorem summarizeCoverage_counterexample :
    accessorSummarizeCoverage (accessorSummarizeCoverage covProbe)
        ≠ accessorSummarizeCoverage covProbe ∧
    ¬ List.Pairwise (fun a b => accessorPrivateCoverageCompare a b < 0)
        (accessorSummarizeCoverage covProbe2).coverageArray := by
  have h1 : covProbe.coverageArray.mergeSort coverageLe = covProbe.coverageArray :=
    List.mergeSort_of_sorted (by decide)
  have hs1 : accessorSummarizeCoverage covProbe =
      { covProbe with coverageArray := [⟨0, 100, 0, 0⟩, ⟨5, 1, 0, 0⟩] } := by
    unfold accessorSummarizeCoverage
    rw [if_neg (by decide)]
    dsimp only []
    rw [h1]
    decide
  have h2 : ({ covProbe with
        coverageArray := [⟨0, 100, 0, 0⟩, ⟨5, 1, 0, 0⟩] } : AccessorState).coverageArray.mergeSort
        coverageLe = [⟨0, 100, 0, 0⟩, ⟨5, 1, 0, 0⟩] :=
    List.mergeSort_of_sorted (by decide)
  have hs2 : accessorSummarizeCoverage
        { covProbe with coverageArray := [⟨0, 100, 0, 0⟩, ⟨5, 1, 0, 0⟩] } =
      { covProbe with coverageArray := [⟨0, 100, 0, 0⟩] } := by
    unfold accessorSummarizeCoverage
    rw [if_neg (by decide)]
    dsimp only []
    rw [h2]
    decide
  have h3 : covProbe2.coverageArray.mergeSort coverageLe = covProbe2.coverageArray :=
    List.mergeSort_of_sorted (by decide)
  have hs3 : accessorSummarizeCoverage covProbe2 =
      { covProbe2 with coverageArray := [⟨0, 5, 0, 0⟩, ⟨0, 11, 1, 0⟩] } := by
    unfold accessorSummarizeCoverage
    rw [if_neg (by decide)]
    dsimp only []
    rw [h3]
    decide
  refine ⟨?_, ?_⟩
  · rw [hs1, hs2]
    decide
  · rw [hs3]
    decide

/-- C9: what does hold of `accessorSummarizeCoverage` with the default
    compare and merge functions: the output is always in non-decreasing
    offset order, and an array that is already strictly sorted by the
    default key with no adjacent mergeable pair is a fixed point; but the
    function is not idempotent in general, and its output need not be
    (strictly) sorted by the default key. -/
theorem summarizeCoverage_sorts_and_fixes (s : AccessorState) :
    List.Pairwise (fun a b => a.offset ≤ b.offset)
      (accessorSummarizeCoverage s).coverageArray ∧
    (List.Pairwise (fun a b => accessorPrivateCoverageCompare a b < 0) s.coverageArray →
      List.Chain' (fun a b => coverageCanMerge a b = false) s.coverageArray →
      accessorSummarizeCoverage s = s) := by
  constructor
  · unfold accessorSummarizeCoverage
    by_cases h0 : s.coverageArray.length = 0
    · rw [if_pos h0]
      rw [List.length_eq_zero] at h0
      rw [h0]
      exact List.Pairwise.nil
    · rw [if_neg h0]
      dsimp only []
      have hsorted : List.Pairwise (fun a b => coverageLe a b = true)
          (s.coverageArray.mergeSort coverageLe) :=
        List.sorted_mergeSort coverageLe_trans coverageLe_total s.coverageArray
      have hoff : List.Pairwise (fun a b : CoverageRecord => a.offset ≤ b.offset)
          (s.coverageArray.mergeSort coverageLe) :=
        hsorted.imp (fun h => by
          unfold coverageLe at h
          rw [decide_eq_true_eq, compare_le_iff] at h
          omega)
      split
      · exact (coverageMergePass_offsets _ hoff).1
      · exact hoff
  · intro hstrict hnomerge
    unfold accessorSummarizeCoverage
    by_cases h0 : s.coverageArray.length = 0
    · rw [if_pos h0]
    · rw [if_neg h0]
      dsimp only []
      have hms : s.coverageArray.mergeSort coverageLe = s.coverageArray :=
        List.mergeSort_of_sorted (hstrict.imp (fun h => by
          unfold coverageLe
          rw [decide_eq_true_eq]
          exact le_of_lt h))
      rw [hms, coverageMergePass_of_no_merge _ hnomerge, ite_self]

theorem summarizeCoverage_sorts_and_fixes_witness :
    List.Pairwise (fun a b => a.offset ≤ b.offset)
      (accessorSummarizeCoverage covProbe3).coverageArray ∧
    accessorSummarizeCoverage covProbe3 = covProbe3 :=
  ⟨(summarizeCoverage_sorts_and_fixes covProbe3).1,
   (summarizeCoverage_sorts_and_fixes covProbe3).2 (by decide)
     (List.chain'_cons.mpr ⟨by decide, List.chain'_singleton _⟩)⟩

/-- C10: `accessorOpenReadingMemory` validates the window using the `size_t`
    sum `windowOffset + windowSize` computed modulo 2^64: there are inputs
    with `windowOffset ≥ 1` and `windowSize` large but different from the
    `SIZE_MAX` sentinel for which the sum wraps, the check
    `windowOffset + windowSize > dataSize` passes, and the function returns
    Ok with a window whose offset plus size exceeds `dataSize` in exact
    arithmetic, instead of returning BeyondEnd. -/
theorem openReadingMemory_window_check_wraps :
    ∃ (windowOffset windowSize : Nat),
      1 ≤ windowOffset ∧ windowSize ≠ SIZE_MAX ∧ SZ ≤ windowOffset + windowSize ∧
      ∃ a : AccessorState,
        accessorOpenReadingMemory .big [] 0 false windowOffset windowSize = (.ok, some a) ∧
        a.windowOffset + a.windowSize > 0 := by
  refine ⟨2, SZ - 2, by norm_num [SZ], by norm_num [SIZE_MAX, SZ], by norm_num [SZ], ?_⟩
  refine ⟨_, rfl, by norm_num [SZ, accessorOpenReadingMemory, ACCESSOR_UNTIL_END, SIZE_MAX,
    szAdd, szSub, createEmpty]⟩

end Accessor
